import Mathlib

/-!
Verification of the SEGUIMIENTO core: the place-clustering engine
(`getMostVisitedPlaces` in `src/utils/locationUtils.ts`) and the incremental
deduplication engine (`UpdateService.mergeEntries` / `generateUniqueId` in the
update service).

Coordinates are embedded as rationals (the source computes with IEEE doubles);
`none` models the TypeScript `null`.  The source's Haversine distance
(`calculateDistance`) is computed with floating-point transcendental functions
and has no exact computable shallow embedding, but the clustering logic
consumes the distance only through `<=` comparisons against thresholds, so the
pipeline is embedded parametrically in the distance function `dist`; theorems
quantified over `dist` in particular cover the source's fixed choice.
-/

set_option maxRecDepth 8000

namespace Seguimiento

/-! ## Data model (src/types.ts) -/

/-- `GeoData` from `src/types.ts`: the common fields consumed by the two
engines (`date`, `time`, `location`, `latitude`, `longitude`).  Optional
KMZ-specific fields are not read by either engine and are omitted. -/

structure GeoData where
  date : String
  time : String
  location : String
  latitude : Option ℚ
  longitude : Option ℚ
  deriving DecidableEq, Repr

/-- `HistoryEntry` from `src/types.ts` restricted to the fields the engines
read: the stable `id` and the geospatial `data`. -/
structure HistoryEntry where
  id : String
  data : GeoData
  deriving DecidableEq, Repr

/-! ## Deduplication engine (`UpdateService`, src/unnamed/part_007) -/

/-- The composite key `` `${date}_${time}_${latitude}_${longitude}` `` built by
`UpdateService.mergeEntries`, modelled as the ordered tuple of the four
fields (the underscore-joined string determines and is determined by the
tuple, up to number formatting). -/
def dedupKey (d : GeoData) : String × String × Option ℚ × Option ℚ :=
  (d.date, d.time, d.latitude, d.longitude)

/-- `UpdateService.mergeEntries`: walks the incoming entries in order,
admitting an entry exactly when its `id` is not among the existing history's
ids and its dedup key is not among the existing history's keys.  The working
sets are computed once from `existingHistory` before the loop and are never
extended during it.  Returns the admitted entries (in input order) and the
skipped count. -/
def mergeEntries (existingHistory newEntries : List HistoryEntry) :
    List HistoryEntry × ℕ :=
  let existingIds := existingHistory.map (fun e => e.id)
  let existingKeys := existingHistory.map (fun e => dedupKey e.data)
  newEntries.foldl
    (fun acc newEntry =>
      if ¬ newEntry.id ∈ existingIds ∧ ¬ dedupKey newEntry.data ∈ existingKeys then
        (acc.1 ++ [newEntry], acc.2)
      else
        (acc.1, acc.2 + 1))
    ([], 0)

/-- The admission predicate of `mergeEntries`, relative to a fixed history:
the candidate's id and dedup key match nothing in that history. -/
def freshEntry (existingHistory : List HistoryEntry) (e : HistoryEntry) : Bool :=
  decide (¬ e.id ∈ existingHistory.map (fun x => x.id) ∧
    ¬ dedupKey e.data ∈ existingHistory.map (fun x => dedupKey x.data))

/-- An incoming point at (21.1, -101.6) on 2025-01-01 08:00.  Its id is the
deterministic hash of (sourceKey, date, time, latitude, longitude), so a second
point of the same batch with identical data carries the identical id. -/
def sampleEntryA : HistoryEntry :=
  { id := "aWQtc2FtcGxl"
    data := { date := "2025-01-01", time := "08:00", location := "Centro"
              latitude := some (211/10), longitude := some (-1016/10) } }

/-- A same-batch duplicate of `sampleEntryA`: identical (date, time, latitude,
longitude), hence identical dedup key and identical deterministic id. -/
def sampleEntryB : HistoryEntry :=
  { id := "aWQtc2FtcGxl"
    data := { date := "2025-01-01", time := "08:00", location := "Centro"
              latitude := some (211/10), longitude := some (-1016/10) } }

/-! ## Clustering engine (`getMostVisitedPlaces`, src/utils/locationUtils.ts)

The source computes its Haversine distance with IEEE-754 doubles and
transcendental functions, which the clustering logic consumes only through
comparisons against thresholds; the pipeline is therefore parametric in the
distance function. -/

/-- The type of `calculateDistance(lat1, lon1, lat2, lon2)`. -/
abbrev DistFn := ℚ → ℚ → ℚ → ℚ → ℚ

/-- `latitude !== null && longitude !== null` (the `entriesWithCoords` filter,
line 64; its negation is the `entriesWithoutCoords` filter, line 67). -/
def hasCoords (e : HistoryEntry) : Bool :=
  e.data.latitude.isSome && e.data.longitude.isSome

/-- The latitude behind the non-null assertion `entry.data.latitude!` (only
consulted on entries that passed `hasCoords`). -/
def latOf (e : HistoryEntry) : ℚ := e.data.latitude.getD 0

/-- The longitude behind `entry.data.longitude!`. -/
def lonOf (e : HistoryEntry) : ℚ := e.data.longitude.getD 0

/-- Centroid latitude of a list of geo-located entries (lines 86-88): plain
arithmetic mean. -/
def avgLat (ce : List HistoryEntry) : ℚ := (ce.map latOf).sum / ce.length

/-- Centroid longitude (lines 89-91). -/
def avgLon (ce : List HistoryEntry) : ℚ := (ce.map lonOf).sum / ce.length

/-- JS `x.toFixed(6)` viewed abstractly: ECMA-262 first splits off the sign of
`x`, then chooses the integer `n` minimising `|n / 10^6 - |x||` with ties to
the larger `n`.  Two numbers produce the same string exactly when they produce
the same (sign, n) pair, so the string is modelled as that pair. -/
def toFixed6 (x : ℚ) : Bool × ℕ :=
  (decide (x < 0), (⌊|x| * 1000000 + 1/2⌋).toNat)

/-- A key of the `placeMap` (line 61).  Coordinate groups are keyed by the
string `` `${lat.toFixed(6)},${lon.toFixed(6)}` `` of the point that created
them (line 104), name groups by `` `name:${normalized}` `` (lines 112-116);
the `name:` marker keeps the two key spaces apart, so the keys form a sum. -/
inductive PlaceKey where
  | coords (lat lon : Bool × ℕ)
  | label (s : String)
  deriving DecidableEq, Repr

/-- The `placeMap` with JS `Map` semantics: a list of key-value pairs in key
insertion order. -/
abbrev PlaceMap := List (PlaceKey × List HistoryEntry)

/-- JS `Map.prototype.set`: overwrite the value at an existing key in place,
else append the new pair at the end. -/
def mapSet (k : PlaceKey) (v : List HistoryEntry) : PlaceMap → PlaceMap
  | [] => [(k, v)]
  | (k1, v1) :: rest => if k1 = k then (k, v) :: rest else (k1, v1) :: mapSet k v rest

/-- JS `Map.prototype.get`. -/
def mapGet (k : PlaceKey) (m : PlaceMap) : Option (List HistoryEntry) :=
  (m.find? (fun p => p.1 = k)).map (fun p => p.2)

/-- The group scan of the geo loop (lines 78-100): walk the groups in insertion
order; a group with no geo-located member is skipped; otherwise its current
centroid is recomputed from its geo members and the entry is appended to the
first group whose centroid lies within `threshold` of the entry.  Returns the
updated map, or `none` when no group qualifies. -/
def scanGroups (dist : DistFn) (threshold lat lon : ℚ) (e : HistoryEntry) :
    PlaceMap → Option PlaceMap
  | [] => none
  | (k, es) :: rest =>
    let ce := es.filter hasCoords
    if ce.length = 0 then
      (scanGroups dist threshold lat lon e rest).map (fun m => (k, es) :: m)
    else if dist lat lon (avgLat ce) (avgLon ce) ≤ threshold then
      some ((k, es ++ [e]) :: rest)
    else
      (scanGroups dist threshold lat lon e rest).map (fun m => (k, es) :: m)

/-- One iteration of the geo loop (lines 72-107): join the first qualifying
group, else `placeMap.set` a fresh singleton group keyed by the entry's
coordinates rounded to six decimals. -/
def insertGeoEntry (dist : DistFn) (threshold : ℚ) (m : PlaceMap)
    (e : HistoryEntry) : PlaceMap :=
  match scanGroups dist threshold (latOf e) (lonOf e) e m with
  | some m1 => m1
  | none => mapSet (PlaceKey.coords (toFixed6 (latOf e)) (toFixed6 (lonOf e))) [e] m

/-- `String.prototype.trim`: whitespace stripped from both ends.  Implemented
over the character list (structurally, unlike the position-based core
`String.trim`). -/
def jsTrim (s : String) : String :=
  ⟨(((s.data.dropWhile Char.isWhitespace).reverse).dropWhile
      Char.isWhitespace).reverse⟩

/-- `String.prototype.toLowerCase` over the character list (ASCII case map,
as `Char.toLower`). -/
def jsToLower (s : String) : String :=
  ⟨s.data.map Char.toLower⟩

/-- `location?.trim().toLowerCase() || 'unknown'` (line 111): trimmed,
lower-cased, with the empty result replaced by the literal bucket `unknown`. -/
def normalizeLabel (s : String) : String :=
  let t := jsToLower (jsTrim s)
  if t = "" then "unknown" else t

/-- One iteration of the label loop (lines 110-118): push onto the group keyed
by the normalized label, creating it at the end of the map if absent. -/
def insertLabelEntry (m : PlaceMap) (e : HistoryEntry) : PlaceMap :=
  let k := PlaceKey.label (normalizeLabel e.data.location)
  match mapGet k m with
  | some es => mapSet k (es ++ [e]) m
  | none => mapSet k [e] m

/-- Lines 61-118: build the `placeMap`, geo-located entries first (in input
order), then label-only entries (in input order). -/
def buildPlaceMap (dist : DistFn) (threshold : ℚ)
    (history : List HistoryEntry) : PlaceMap :=
  let entriesWithCoords := history.filter hasCoords
  let entriesWithoutCoords := history.filter (fun e => ! hasCoords e)
  entriesWithoutCoords.foldl insertLabelEntry
    (entriesWithCoords.foldl (insertGeoEntry dist threshold) [])

/-- The `MostVisitedPlace` record of `locationUtils.ts` (lines 3-13). -/
structure MostVisitedPlace where
  location : String
  latitude : Option ℚ
  longitude : Option ℚ
  visitCount : ℕ
  entries : List HistoryEntry
  visitDates : List String
  timeRange : Option (String × String)
  allTimes : List String
  deriving DecidableEq, Repr

/-- Stable insertion into a list sorted descending by the measure `f`: the new
element goes before the first strictly smaller element, hence after every
already-present element of equal measure. -/
def insertCountDesc (f : α → ℕ) (x : α) : List α → List α
  | [] => [x]
  | y :: ys => if f y < f x then x :: y :: ys else y :: insertCountDesc f x ys

/-- Stable descending sort by `f`: models `Array.prototype.sort` with the
comparator `(a, b) => f(b) - f(a)` (ECMA-262 requires sort stability), used at
lines 134-136 and line 200. -/
def sortCountDesc (f : α → ℕ) (l : List α) : List α :=
  l.foldl (fun acc x => insertCountDesc f x acc) []

/-- Lexicographic comparison of character lists, the order JS string
comparison implements (code-unit-wise; identical to code-point order on the
basic multilingual plane).  Structurally recursive, in contrast with the
iterator-based core `String.ltb`. -/
def charLtb : List Char → List Char → Bool
  | [], [] => false
  | [], _ :: _ => true
  | _ :: _, [] => false
  | a :: as, b :: bs =>
      if a < b then true
      else if b < a then false
      else charLtb as bs

/-- Stable insertion into an ascending list of strings. -/
def insertStrAsc (x : String) : List String → List String
  | [] => [x]
  | y :: ys => if charLtb x.data y.data then x :: y :: ys else y :: insertStrAsc x ys

/-- `Array.prototype.sort()` with the default comparator on strings:
lexicographic ascending (lines 167 and 179). -/
def sortStrAsc (l : List String) : List String :=
  l.foldl (fun acc x => insertStrAsc x acc) []

/-- The test `/^\d{2}:\d{2}$/` (line 172). -/
def isHHMM (s : String) : Bool :=
  match s.data with
  | [a, b, c, d, e] => a.isDigit && b.isDigit && c = ':' && d.isDigit && e.isDigit
  | _ => false

/-- The test `/^\d{4}-\d{2}-\d{2}$/` (line 163). -/
def isDateYMD (s : String) : Bool :=
  match s.data with
  | [a, b, c, d, e, f, g, h, i, j] =>
      a.isDigit && b.isDigit && c.isDigit && d.isDigit && e = '-' &&
      f.isDigit && g.isDigit && h = '-' && i.isDigit && j.isDigit
  | _ => false

/-- JS `Set.prototype.add` on an insertion-ordered list of strings. -/
def setAdd (l : List String) (s : String) : List String :=
  if s ∈ l then l else l ++ [s]

/-- A JS `Set` filled by iterating a list, read back in insertion order. -/
def insertionOrderedSet (l : List String) : List String :=
  l.foldl setAdd []

/-- The label counted for one member at lines 130-133:
`e.data.location?.trim() || 'Ubicación desconocida'` — trimmed, with the empty
result replaced by the placeholder. -/
def countedLabel (e : HistoryEntry) : String :=
  let t := jsTrim e.data.location
  if t = "" then "Ubicación desconocida" else t

/-- `locationCounts.set(loc, (locationCounts.get(loc) || 0) + 1)` on an
insertion-ordered counts map. -/
def bumpCount : List (String × ℕ) → String → List (String × ℕ)
  | [], s => [(s, 1)]
  | (k, n) :: rest, s =>
      if k = s then (k, n + 1) :: rest else (k, n) :: bumpCount rest s

/-- The per-member label counts of lines 129-133, in first-occurrence order. -/
def labelCounts (entries : List HistoryEntry) : List (String × ℕ) :=
  (entries.map countedLabel).foldl bumpCount []

/-- Lines 128-138: the counted label with the highest count, ties resolved by
stability of the sort toward the first-counted label. -/
def mostCommonLabel (entries : List HistoryEntry) : String :=
  ((sortCountDesc (fun p => p.2) (labelCounts entries)).headD ("", 0)).1

/-- A placeholder entry standing for the out-of-bounds read `entries[0]` on an
empty group; groups are never empty. -/
def dummyEntry : HistoryEntry :=
  { id := "", data := { date := "", time := "", location := "",
                        latitude := none, longitude := none } }

/-- Lines 121-196: turn one `placeMap` group into a `MostVisitedPlace`. -/
def computePlace (group : PlaceKey × List HistoryEntry) : MostVisitedPlace :=
  let entries := group.2
  let firstEntry := entries.headD dummyEntry
  let baseName :=
    if firstEntry.data.location = "" then "Ubicación desconocida"
    else firstEntry.data.location
  let locationName := if entries.length > 1 then mostCommonLabel entries else baseName
  let ce := entries.filter hasCoords
  let finalLat :=
    if ce.length > 1 then some (avgLat ce)
    else if ce.length = 1 then (ce.headD dummyEntry).data.latitude
    else firstEntry.data.latitude
  let finalLon :=
    if ce.length > 1 then some (avgLon ce)
    else if ce.length = 1 then (ce.headD dummyEntry).data.longitude
    else firstEntry.data.longitude
  let visitDates :=
    sortStrAsc (insertionOrderedSet
      ((entries.map (fun e => e.data.date)).filter isDateYMD))
  let times := (entries.map (fun e => e.data.time)).filter isHHMM
  let timeRange :=
    if times.length = 0 then none
    else
      let sortedTimes := sortStrAsc times
      some (sortedTimes.headD "", sortedTimes.getLastD "")
  { location := locationName
    latitude := finalLat
    longitude := finalLon
    visitCount := entries.length
    entries := entries
    visitDates := visitDates
    timeRange := timeRange
    allTimes := times }

/-- The pre-filter cluster list (lines 121-197). -/
def placesOf (dist : DistFn) (threshold : ℚ)
    (history : List HistoryEntry) : List MostVisitedPlace :=
  (buildPlaceMap dist threshold history).map computePlace

/-- Line 200: the cluster list sorted descending by `visitCount`. -/
def sortedPlacesOf (dist : DistFn) (threshold : ℚ)
    (history : List HistoryEntry) : List MostVisitedPlace :=
  sortCountDesc (fun p => p.visitCount) (placesOf dist threshold history)

/-- A geofence center (line 203): coordinates and the visit count of the
contributing cluster(s). -/
structure GeofenceCenter where
  latitude : ℚ
  longitude : ℚ
  visitCount : ℕ
  deriving DecidableEq, Repr

/-- Weighted centroid of a nearby group (lines 253-262): visit-count-weighted
average of the coordinates, summed visit count. -/
def weightedCenter (nearby : List GeofenceCenter) : GeofenceCenter :=
  let totalVisits : ℕ := (nearby.map (fun c => c.visitCount)).sum
  { latitude :=
      (nearby.map (fun c => c.latitude * (c.visitCount : ℚ))).sum / (totalVisits : ℚ)
    longitude :=
      (nearby.map (fun c => c.longitude * (c.visitCount : ℚ))).sum / (totalVisits : ℚ)
    visitCount := totalVisits }

/-- One iteration of the inner scan (lines 235-250): skip a processed index,
otherwise add the center to the nearby group and mark its index processed
when it lies within 0.5 km of the current center. -/
def innerStep (dist : DistFn) (centers : List GeofenceCenter)
    (current : GeofenceCenter) (st : List GeofenceCenter × List ℕ) (j : ℕ) :
    List GeofenceCenter × List ℕ :=
  if j ∈ st.2 then st
  else
    match centers[j]? with
    | none => st
    | some other =>
      if dist current.latitude current.longitude
          other.latitude other.longitude ≤ 1/2 then
        (st.1 ++ [other], st.2 ++ [j])
      else st

/-- The inner scan of the consolidation pass (lines 234-250): for the current
center at index `i`, walk the indices `i+1 .. length-1` in order, collecting
every still-unprocessed center within 0.5 km of the current center itself and
marking it processed. -/
def collectNearby (dist : DistFn) (centers : List GeofenceCenter)
    (current : GeofenceCenter) (i : ℕ) (processed : List ℕ) :
    List GeofenceCenter × List ℕ :=
  (List.range' (i + 1) (centers.length - (i + 1))).foldl
    (innerStep dist centers current) ([current], processed)

/-- One iteration of the outer pass (lines 227-266): skip a processed index;
otherwise group the current center with the nearby unprocessed centers and
emit the weighted centroid when the group has more than one member, the
center itself otherwise. -/
def outerStep (dist : DistFn) (centers : List GeofenceCenter)
    (st : List GeofenceCenter × List ℕ) (i : ℕ) :
    List GeofenceCenter × List ℕ :=
  if i ∈ st.2 then st
  else
    match centers[i]? with
    | none => st
    | some current =>
      let scan := collectNearby dist centers current i (st.2 ++ [i])
      let merged := if scan.1.length > 1 then weightedCenter scan.1 else current
      (st.1 ++ [merged], scan.2)

/-- The outer consolidation pass (lines 227-266): scan all indices in order
with a shared processed set, collecting the merged centers. -/
def mergeCentersLoop (dist : DistFn) (centers : List GeofenceCenter) :
    List GeofenceCenter :=
  ((List.range centers.length).foldl (outerStep dist centers) ([], [])).1

/-- Lines 222-269: the consolidation pass runs only when more than one center
exists. -/
def consolidateCenters (dist : DistFn) (centers : List GeofenceCenter) :
    List GeofenceCenter :=
  if centers.length > 1 then mergeCentersLoop dist centers else centers

/-- Lines 204-270: when the home-geofence exclusion is enabled and there are
strictly more clusters than `excludeTopN`, the first `excludeTopN` sorted
clusters are excluded by position (the index set `0..excludeTopN-1`, modelled
by its size) and those among them with coordinates seed the geofence centers;
otherwise nothing is excluded and no center exists. -/
def exclusionData (dist : DistFn) (sorted : List MostVisitedPlace)
    (excludeHomeGeofence : Bool) (excludeTopN : ℕ) : ℕ × List GeofenceCenter :=
  if excludeHomeGeofence && decide (sorted.length > excludeTopN) then
    let centers := (sorted.take excludeTopN).filterMap
      (fun p => match p.latitude, p.longitude with
        | some la, some lo =>
            some { latitude := la, longitude := lo, visitCount := p.visitCount }
        | _, _ => none)
    (excludeTopN, consolidateCenters dist centers)
  else (0, [])

/-- The filter predicate of lines 273-305, applied to (index, place) pairs of
the sorted list: positionally excluded indices are dropped; places lacking a
coordinate are kept; with no geofence center every place is kept; otherwise a
place is kept exactly when it is farther than `geofenceRadius` from every
center. -/
def keepPlace (dist : DistFn) (geofenceRadius : ℚ) (excludedCount : ℕ)
    (centers : List GeofenceCenter) (ip : ℕ × MostVisitedPlace) : Bool :=
  if ip.1 < excludedCount then false
  else if ip.2.latitude.isNone || ip.2.longitude.isNone then true
  else if centers.isEmpty then true
  else centers.all (fun c =>
    ! decide (dist c.latitude c.longitude
      (ip.2.latitude.getD 0) (ip.2.longitude.getD 0) ≤ geofenceRadius))

/-- `getMostVisitedPlaces` (lines 48-309), parametric in the distance
function.  Source defaults: `limit = 3`, `distanceThreshold = 0.1`,
`excludeHomeGeofence = true`, `geofenceRadius = 0.2`, `excludeTopN = 2`. -/
def getMostVisitedPlaces (dist : DistFn) (history : List HistoryEntry)
    (limit : ℕ) (distanceThreshold : ℚ) (excludeHomeGeofence : Bool)
    (geofenceRadius : ℚ) (excludeTopN : ℕ) : List MostVisitedPlace :=
  if history.length = 0 then []
  else
    (((sortedPlacesOf dist distanceThreshold history).enum.filter
        (keepPlace dist geofenceRadius
          (exclusionData dist (sortedPlacesOf dist distanceThreshold history)
            excludeHomeGeofence excludeTopN).1
          (exclusionData dist (sortedPlacesOf dist distanceThreshold history)
            excludeHomeGeofence excludeTopN).2)).map
      (fun ip => ip.2)).take limit

/-- Rational surrogate distance used for the concrete instances below: 111 km
per degree in the L1 metric.  At every comparison exercised by those concrete
inputs it falls on the same side of the threshold as the source's Haversine
distance (111.195 km per degree along a meridian, and zero on coincident
points). -/
def distL1 : DistFn := fun lat1 lon1 lat2 lon2 =>
  111 * (|lat2 - lat1| + |lon2 - lon1|)

/-- A geo-located history entry. -/
def mkGeoEntry (id d t loc : String) (la lo : ℚ) : HistoryEntry :=
  { id := id
    data := { date := d, time := t, location := loc,
              latitude := some la, longitude := some lo } }

/-- The spec's three-point scenario: two points about 15 m apart near
(21.1, -101.6) and one far away at (19, -99). -/
def threePointHistory : List HistoryEntry :=
  [ mkGeoEntry "p1" "2025-01-01" "08:00" "A" (211/10) (-1016/10),
    mkGeoEntry "p2" "2025-01-01" "08:05" "B" (211001/10000) (-10160001/100000),
    mkGeoEntry "p3" "2025-01-01" "09:00" "C" 19 (-99) ]

/-- A history with a single geo-located point. -/
def soloHistory : List HistoryEntry :=
  [ mkGeoEntry "s1" "2025-01-02" "10:00" "Solo" (211/10) (-1016/10) ]

/-- Two geo points far apart (about 233 km), yielding two clusters. -/
def twoFarHistory : List HistoryEntry :=
  [ mkGeoEntry "f1" "2025-01-03" "07:00" "F1" (211/10) (-1016/10),
    mkGeoEntry "f2" "2025-01-03" "07:30" "F2" 19 (-99) ]

/-- Six geo points on the meridian (longitude 0).  The first five form one
cluster whose centroid drifts north of the creating point; the sixth lies
within 4e-7 degrees of the first point (hence shares its 6-decimal coordinate
key "0.000000,0.000000") yet is farther than the 0.1 km threshold from the
drifted centroid, so a "new" cluster is created under the existing key and
`Map.set` silently replaces the old five-member group.  Every distance
comparison falls on the same side of the threshold under the surrogate
`distL1` (111 km per degree) as under the source's Haversine distance
(111.195 km per degree along a meridian). -/
def driftE1 : HistoryEntry := mkGeoEntry "e1" "2025-01-01" "08:00" "P" 0 0

def driftE2 : HistoryEntry := mkGeoEntry "e2" "2025-01-01" "08:01" "P" (8/10000) 0

def driftE3 : HistoryEntry := mkGeoEntry "e3" "2025-01-01" "08:02" "P" (12/10000) 0

def driftE4 : HistoryEntry := mkGeoEntry "e4" "2025-01-01" "08:03" "P" (155/100000) 0

def driftE5 : HistoryEntry := mkGeoEntry "e5" "2025-01-01" "08:04" "P" (175/100000) 0

def driftE6 : HistoryEntry := mkGeoEntry "q" "2025-01-01" "08:05" "Q" (4/10000000) 0

def driftHistory : List HistoryEntry :=
  [driftE1, driftE2, driftE3, driftE4, driftE5, driftE6]

/-- The shared 6-decimal key "0.000000,0.000000" of the first and the last
drift point. -/
def driftKey : PlaceKey := PlaceKey.coords (false, 0) (false, 0)

/-! ## Specification-side definitions and concrete inputs -/

/-- Specification view of the geo assignment scan: the index of the first
group, in creation order, that has at least one geo-located member and whose
current centroid (recomputed from its geo members) lies within `threshold` of
the candidate point. -/
def firstFitIdx (dist : DistFn) (threshold lat lon : ℚ) : PlaceMap → Option ℕ
  | [] => none
  | g :: rest =>
    if 0 < (g.2.filter hasCoords).length ∧
        dist lat lon (avgLat (g.2.filter hasCoords))
          (avgLon (g.2.filter hasCoords)) ≤ threshold
    then some 0
    else (firstFitIdx dist threshold lat lon rest).map (fun i => i + 1)

/-- Spec-side view of "most frequent label, ties to the first occurrence":
the first element of `ls` whose multiplicity in `ls` is maximal. -/
def firstMaxLabel (ls : List String) : Option String :=
  ls.find? (fun x => ls.all (fun u => decide (ls.count u ≤ ls.count x)))

/-- Three entries at one location whose labels are "", "" and "Cafe": the two
empty labels are counted as the placeholder, which wins the frequency vote. -/
def emptyLabelHistory : List HistoryEntry :=
  [ mkGeoEntry "a" "2025-01-01" "08:00" "" 0 0,
    mkGeoEntry "b" "2025-01-01" "08:05" "" 0 0,
    mkGeoEntry "c" "2025-01-01" "09:00" "Cafe" 0 0 ]

/-- A single entry whose time field encodes a range. -/
def rangeTimeHistory : List HistoryEntry :=
  [ { id := "t1"
      data := { date := "2025-01-01", time := "08:00 to 09:00", location := "X",
                latitude := none, longitude := none } } ]

/-- Specification view of the consolidation pass (spec section 4.3 step 3). -/
def greedyConsolidate (dist : DistFn) : List GeofenceCenter → List GeofenceCenter
  | [] => []
  | c :: rest =>
    let near := rest.filter (fun o =>
      decide (dist c.latitude c.longitude o.latitude o.longitude ≤ 1/2))
    let far := rest.filter (fun o =>
      ! decide (dist c.latitude c.longitude o.latitude o.longitude ≤ 1/2))
    (if 0 < near.length then weightedCenter (c :: near) else c) ::
      greedyConsolidate dist far
termination_by l => l.length
decreasing_by
  simp only [List.length_cons]
  exact Nat.lt_succ_of_le (List.length_filter_le _ rest)

/-- Whether the center at index `j` (when it exists) lies within the merge
radius of `current`; apparatus for the loop lemmas. -/
def withinOpt (dist : DistFn) (centers : List GeofenceCenter)
    (current : GeofenceCenter) (j : ℕ) : Bool :=
  match centers[j]? with
  | none => false
  | some o =>
      decide (dist current.latitude current.longitude o.latitude o.longitude ≤ 1/2)

/-- The indices the inner scan groups with `current`, relative to the
processed set `ps`. -/
def qInner (dist : DistFn) (centers : List GeofenceCenter) (ps : List ℕ)
    (current : GeofenceCenter) (j : ℕ) : Bool :=
  ! decide (j ∈ ps) && withinOpt dist centers current j

/-- The still-unprocessed centers among the indices `L`. -/
def pendCenters (centers : List GeofenceCenter) (ps : List ℕ) (L : List ℕ) :
    List GeofenceCenter :=
  (L.filter (fun j => ! decide (j ∈ ps))).filterMap (fun j => centers[j]?)

/-- Three centers on a meridian: the first two (0.444 km apart) merge into a
weighted centroid at latitude 0.003; the third (0.8325 km from the first, so
not grouped) ends within 0.4995 km of that centroid — the pass leaves two
final centers within the merge radius, demonstrating that groups are final
and the pass is not iterated to a fixed point. -/
def nonFixpointCenters : List GeofenceCenter :=
  [ { latitude := 0, longitude := 0, visitCount := 1 },
    { latitude := 4/1000, longitude := 0, visitCount := 3 },
    { latitude := 75/10000, longitude := 0, visitCount := 2 } ]

/-! ## Theorems: deduplication engine (claims C1, C5) -/

theorem mergeEntries_foldl_spec (existingHistory : List HistoryEntry)
    (newEntries : List HistoryEntry) (acc : List HistoryEntry × ℕ) :
    newEntries.foldl
      (fun acc newEntry =>
        if ¬ newEntry.id ∈ existingHistory.map (fun e => e.id) ∧
            ¬ dedupKey newEntry.data ∈ existingHistory.map (fun e => dedupKey e.data) then
          (acc.1 ++ [newEntry], acc.2)
        else
          (acc.1, acc.2 + 1))
      acc =
    (acc.1 ++ newEntries.filter (freshEntry existingHistory),
     acc.2 + (newEntries.filter (fun e => ! freshEntry existingHistory e)).length) := by
  induction newEntries generalizing acc with
  | nil => simp
  | cons e rest ih =>
    by_cases h : ¬ e.id ∈ existingHistory.map (fun x => x.id) ∧
        ¬ dedupKey e.data ∈ existingHistory.map (fun x => dedupKey x.data)
    · simp only [List.foldl_cons, if_pos h, ih]
      have hf : freshEntry existingHistory e = true := by
        simp [freshEntry, h.1, h.2]
      simp [List.filter_cons, hf]
    · simp only [List.foldl_cons, if_neg h, ih]
      have hf : freshEntry existingHistory e = false := by
        simp only [freshEntry, decide_eq_false_iff_not]
        exact h
      simp [List.filter_cons, hf]
      omega

/-- `mergeEntries` is the filter of the incoming batch by freshness with
respect to the existing history alone; the skipped count is the number of
non-fresh entries. -/
theorem mergeEntries_eq_filter (existingHistory newEntries : List HistoryEntry) :
    mergeEntries existingHistory newEntries =
      (newEntries.filter (freshEntry existingHistory),
       (newEntries.filter (fun e => ! freshEntry existingHistory e)).length) := by
  unfold mergeEntries
  simpa using mergeEntries_foldl_spec existingHistory newEntries ([], 0)

/-- C1 is false on the code: with an empty existing history, a batch holding two
candidates with identical (date, time, latitude, longitude) is admitted in
full — `mergeEntries` admits both (admittedCount = 2, skippedCount = 0), not
admittedCount = 1, skippedCount = 1 as the claim states, because the working
sets are never extended during the pass. -/
theorem C1_counterexample :
    (mergeEntries [] [sampleEntryA, sampleEntryB]).1.length = 2 ∧
    (mergeEntries [] [sampleEntryA, sampleEntryB]).2 = 0 ∧
    ¬ ((mergeEntries [] [sampleEntryA, sampleEntryB]).1.length = 1 ∧
       (mergeEntries [] [sampleEntryA, sampleEntryB]).2 = 1) := by
  refine ⟨by decide, by decide, ?_⟩
  intro h
  have := h.1
  revert this
  decide

/-- C1 amended: the duplicate-detection sets are computed from the existing
history only and are not extended while the batch is scanned, so duplicates
within the same incoming batch are not caught: every candidate whose id and
dedup key are absent from the existing history is admitted, identical
same-batch candidates included, and the skipped count counts only candidates
matching the existing history. -/
theorem C1_merge_sets_not_extended (existingHistory newEntries : List HistoryEntry) :
    (mergeEntries existingHistory newEntries).1 =
      newEntries.filter (freshEntry existingHistory) ∧
    (mergeEntries existingHistory newEntries).2 =
      (newEntries.filter (fun e => ! freshEntry existingHistory e)).length := by
  rw [mergeEntries_eq_filter]
  exact ⟨rfl, rfl⟩

/-- C5: merging a batch against a history admits exactly the candidates that are
fresh with respect to that history, and merging the identical batch a second
time against the history augmented with the first merge's admitted entries
admits nothing: every candidate is skipped (admitted list empty, skipped count
the whole batch), because each candidate either was admitted (so its dedup key
is now in the augmented history) or already matched the original history. -/
theorem C5_merge_idempotent (existingHistory newEntries : List HistoryEntry) :
    (mergeEntries existingHistory newEntries).1 =
      newEntries.filter (freshEntry existingHistory) ∧
    (mergeEntries (existingHistory ++ (mergeEntries existingHistory newEntries).1)
        newEntries).1 = [] ∧
    (mergeEntries (existingHistory ++ (mergeEntries existingHistory newEntries).1)
        newEntries).2 = newEntries.length := by
  have h1 := mergeEntries_eq_filter existingHistory newEntries
  set admittedFirst := (mergeEntries existingHistory newEntries).1 with hadm
  have hadmEq : admittedFirst = newEntries.filter (freshEntry existingHistory) := by
    rw [hadm, h1]
  have h2 := mergeEntries_eq_filter (existingHistory ++ admittedFirst) newEntries
  have hAllStale : ∀ e ∈ newEntries,
      freshEntry (existingHistory ++ admittedFirst) e = false := by
    intro e he
    simp only [freshEntry, decide_eq_false_iff_not, not_and_or, not_not]
    by_cases hf : freshEntry existingHistory e = true
    · right
      have heAdm : e ∈ admittedFirst := by
        rw [hadmEq]
        exact List.mem_filter.mpr ⟨he, hf⟩
      simp only [List.map_append, List.mem_append]
      right
      exact List.mem_map.mpr ⟨e, heAdm, rfl⟩
    · have hstale := (Bool.not_eq_true _).mp hf
      simp only [freshEntry, decide_eq_false_iff_not, not_and_or, not_not] at hstale
      rcases hstale with hid | hkey
      · left
        simp only [List.map_append, List.mem_append]
        exact Or.inl hid
      · right
        simp only [List.map_append, List.mem_append]
        exact Or.inl hkey
  refine ⟨hadmEq ▸ rfl, ?_, ?_⟩
  · rw [h2]
    simp only
    exact List.filter_eq_nil_iff.mpr (fun e he => by simp [hAllStale e he])
  · rw [h2]
    simp only
    rw [List.filter_congr (fun e he => by simp [hAllStale e he] : ∀ e ∈ newEntries,
      (! freshEntry (existingHistory ++ admittedFirst) e) = true)]
    simp

/-! ## Theorems: stable sorts -/

theorem insertCountDesc_perm (f : α → ℕ) (x : α) (l : List α) :
    List.Perm (insertCountDesc f x l) (x :: l) := by
  induction l with
  | nil => exact List.Perm.refl _
  | cons y ys ih =>
    unfold insertCountDesc
    by_cases h : f y < f x
    · rw [if_pos h]
    · rw [if_neg h]
      exact (ih.cons y).trans (List.Perm.swap x y ys)

theorem insertCountDesc_sorted (f : α → ℕ) (x : α) (l : List α)
    (hs : l.Sorted (fun a b => f b ≤ f a)) :
    (insertCountDesc f x l).Sorted (fun a b => f b ≤ f a) := by
  induction l with
  | nil => simp [insertCountDesc]
  | cons y ys ih =>
    unfold insertCountDesc
    rcases List.sorted_cons.mp hs with ⟨hy, hys⟩
    by_cases h : f y < f x
    · rw [if_pos h]
      refine List.sorted_cons.mpr ⟨?_, hs⟩
      intro b hb
      rcases List.mem_cons.mp hb with hb1 | hb1
      · rw [hb1]
        exact Nat.le_of_lt h
      · exact le_trans (hy b hb1) (Nat.le_of_lt h)
    · rw [if_neg h]
      refine List.sorted_cons.mpr ⟨?_, ih hys⟩
      intro b hb
      have hb2 := (insertCountDesc_perm f x ys).mem_iff.mp hb
      rcases List.mem_cons.mp hb2 with hb1 | hb1
      · rw [hb1]
        exact Nat.le_of_not_lt h
      · exact hy b hb1

theorem insertCountDesc_filter (f : α → ℕ) (x : α) (l : List α)
    (hs : l.Sorted (fun a b => f b ≤ f a)) (v : ℕ) :
    (insertCountDesc f x l).filter (fun y => f y = v) =
      if f x = v then l.filter (fun y => f y = v) ++ [x]
      else l.filter (fun y => f y = v) := by
  induction l with
  | nil =>
    by_cases h : f x = v <;> simp [insertCountDesc, List.filter, h]
  | cons y ys ih =>
    rcases List.sorted_cons.mp hs with ⟨hy, hys⟩
    unfold insertCountDesc
    by_cases h : f y < f x
    · rw [if_pos h]
      by_cases hxv : f x = v
      · have hnil : (y :: ys).filter (fun z => f z = v) = [] := by
          refine List.filter_eq_nil_iff.mpr ?_
          intro a ha
          have hav : f a ≤ f y := by
            rcases List.mem_cons.mp ha with ha1 | ha1
            · rw [ha1]
            · exact hy a ha1
          simp only [decide_eq_true_eq]
          omega
      -- every value in y :: ys is below f x = v, so the filter keeps only x
        rw [if_pos hxv, hnil, List.nil_append]
        have hyv : ¬ f y = v := by omega
        have hysn : ys.filter (fun z => f z = v) = [] := by
          rcases List.filter_cons.symm ▸ hnil with h2
          refine List.filter_eq_nil_iff.mpr ?_
          intro a ha
          have := List.filter_eq_nil_iff.mp hnil a (List.mem_cons_of_mem y ha)
          exact this
        simp [List.filter_cons, hxv, hyv, hysn]
      · rw [if_neg hxv]
        simp [List.filter_cons, hxv]
    · rw [if_neg h]
      by_cases hxv : f x = v
      · rw [if_pos hxv]
        by_cases hyv : f y = v <;>
          simp [List.filter_cons, hyv, ih hys, hxv]
      · rw [if_neg hxv]
        by_cases hyv : f y = v <;>
          simp [List.filter_cons, hyv, ih hys, hxv]

theorem sortCountDesc_append (f : α → ℕ) (l : List α) (x : α) :
    sortCountDesc f (l ++ [x]) = insertCountDesc f x (sortCountDesc f l) := by
  simp [sortCountDesc, List.foldl_append]

theorem sortCountDesc_perm (f : α → ℕ) (l : List α) :
    List.Perm (sortCountDesc f l) l := by
  induction l using List.reverseRecOn with
  | nil => exact List.Perm.refl _
  | append_singleton l x ih =>
    rw [sortCountDesc_append]
    exact ((insertCountDesc_perm f x _).trans (ih.cons x)).trans
      (List.perm_append_singleton x l).symm

theorem sortCountDesc_sorted (f : α → ℕ) (l : List α) :
    (sortCountDesc f l).Sorted (fun a b => f b ≤ f a) := by
  induction l using List.reverseRecOn with
  | nil => simp [sortCountDesc]
  | append_singleton l x ih =>
    rw [sortCountDesc_append]
    exact insertCountDesc_sorted f x _ ih

theorem sortCountDesc_filter (f : α → ℕ) (l : List α) (v : ℕ) :
    (sortCountDesc f l).filter (fun y => f y = v) = l.filter (fun y => f y = v) := by
  induction l using List.reverseRecOn with
  | nil => rfl
  | append_singleton l x ih =>
    rw [sortCountDesc_append,
      insertCountDesc_filter f x _ (sortCountDesc_sorted f l) v]
    by_cases h : f x = v
    · rw [if_pos h, ih, List.filter_append]
      simp [List.filter, h]
    · rw [if_neg h, ih, List.filter_append]
      simp [List.filter, h]

theorem find?_congr_mem (p q : α → Bool) (l : List α)
    (h : ∀ x ∈ l, p x = q x) : l.find? p = l.find? q := by
  induction l with
  | nil => rfl
  | cons y ys ih =>
    have hy := h y (List.mem_cons_self y ys)
    by_cases hp : p y = true
    · rw [List.find?_cons_of_pos _ hp, List.find?_cons_of_pos _ (hy ▸ hp)]
    · rw [List.find?_cons_of_neg _ hp,
        List.find?_cons_of_neg _ (by rw [← hy]; exact hp),
        ih (fun x hx => h x (List.mem_cons_of_mem y hx))]

theorem find?_eq_head?_filter (p : α → Bool) (l : List α) :
    l.find? p = (l.filter p).head? := by
  induction l with
  | nil => rfl
  | cons y ys ih =>
    by_cases hp : p y = true
    · rw [List.find?_cons_of_pos _ hp, List.filter_cons_of_pos hp, List.head?_cons]
    · rw [List.find?_cons_of_neg _ hp,
        List.filter_cons_of_neg (by simpa using hp), ih]

/-- The head of the stable descending sort is the first element of the input
attaining the maximal measure. -/
theorem sortCountDesc_head (f : α → ℕ) (l : List α) (hne : l ≠ []) :
    (sortCountDesc f l).head? = l.find? (fun x => l.all (fun y => f y ≤ f x)) := by
  have hperm := sortCountDesc_perm f l
  have hsorted := sortCountDesc_sorted f l
  have hsne : sortCountDesc f l ≠ [] := by
    intro h0
    exact hne (List.eq_nil_of_length_eq_zero (by
      rw [← hperm.length_eq, h0]
      rfl))
  obtain ⟨h0, t0, hht⟩ := List.exists_cons_of_ne_nil hsne
  have hmax : ∀ y ∈ l, f y ≤ f h0 := by
    intro y hy
    have hy2 : y ∈ sortCountDesc f l := hperm.mem_iff.mpr hy
    rw [hht] at hy2 hsorted
    rcases List.mem_cons.mp hy2 with h1 | h1
    · rw [h1]
    · exact List.rel_of_sorted_cons hsorted y h1
  have hmem : h0 ∈ l := hperm.mem_iff.mp (by rw [hht]; exact List.mem_cons_self _ _)
  have hpred : ∀ x ∈ l, (l.all (fun y => f y ≤ f x)) = decide (f x = f h0) := by
    intro x hx
    by_cases hv : f x = f h0
    · have hd : decide (f x = f h0) = true := by simp [hv]
      rw [hd, List.all_eq_true]
      intro y hy
      simp only [decide_eq_true_eq]
      rw [hv]
      exact hmax y hy
    · have hd : decide (f x = f h0) = false := by simp [hv]
      rw [hd, List.all_eq_false]
      refine ⟨h0, hmem, ?_⟩
      have h1 := hmax x hx
      simp only [decide_eq_true_eq]
      omega
  rw [find?_congr_mem _ _ l hpred, find?_eq_head?_filter,
    ← sortCountDesc_filter f l (f h0), hht]
  have : f h0 = f h0 := rfl
  simp [List.filter_cons]

theorem charLtb_iff (a b : List Char) : charLtb a b = true ↔ a < b := by
  induction a generalizing b with
  | nil =>
    cases b with
    | nil =>
      simp only [charLtb]
      constructor
      · intro h
        exact absurd h (by simp)
      · intro h
        cases h
    | cons c cs =>
      simp only [charLtb, true_iff]
      exact List.Lex.nil
  | cons x xs ih =>
    cases b with
    | nil =>
      simp only [charLtb]
      constructor
      · intro h
        exact absurd h (by simp)
      · intro h
        cases h
    | cons y ys =>
      unfold charLtb
      by_cases h1 : x < y
      · rw [if_pos h1]
        simp only [true_iff]
        exact List.Lex.rel h1
      · rw [if_neg h1]
        by_cases h2 : y < x
        · rw [if_pos h2]
          constructor
          · intro h
            exact absurd h (by simp)
          · intro h
            cases h with
            | cons h => exact absurd h2 (lt_irrefl _)
            | rel h => exact absurd h h1
        · rw [if_neg h2]
          rw [ih ys]
          have hxy : x = y := le_antisymm (le_of_not_lt h2) (le_of_not_lt h1)
          subst hxy
          constructor
          · intro h
            exact List.Lex.cons h
          · intro h
            cases h with
            | cons h => exact h
            | rel h => exact absurd h h1

theorem charLtb_str_iff (x y : String) : charLtb x.data y.data = true ↔ x < y := by
  rw [String.lt_iff_toList_lt]
  exact charLtb_iff x.data y.data

theorem insertStrAsc_perm (x : String) (l : List String) :
    List.Perm (insertStrAsc x l) (x :: l) := by
  induction l with
  | nil => exact List.Perm.refl _
  | cons y ys ih =>
    unfold insertStrAsc
    by_cases h : charLtb x.data y.data = true
    · rw [if_pos h]
    · rw [if_neg h]
      exact (ih.cons y).trans (List.Perm.swap x y ys)

theorem insertStrAsc_sorted (x : String) (l : List String)
    (hs : l.Sorted (· ≤ ·)) : (insertStrAsc x l).Sorted (· ≤ ·) := by
  induction l with
  | nil => simp [insertStrAsc]
  | cons y ys ih =>
    unfold insertStrAsc
    rcases List.sorted_cons.mp hs with ⟨hy, hys⟩
    by_cases h0 : charLtb x.data y.data = true
    · rw [if_pos h0]
      have h : x < y := (charLtb_str_iff x y).mp h0
      refine List.sorted_cons.mpr ⟨?_, hs⟩
      intro b hb
      rcases List.mem_cons.mp hb with hb1 | hb1
      · rw [hb1]
        exact le_of_lt h
      · exact le_trans (le_of_lt h) (hy b hb1)
    · rw [if_neg h0]
      have h : ¬ x < y := fun hc => h0 ((charLtb_str_iff x y).mpr hc)
      refine List.sorted_cons.mpr ⟨?_, ih hys⟩
      intro b hb
      rcases List.mem_cons.mp ((insertStrAsc_perm x ys).mem_iff.mp hb) with hb1 | hb1
      · rw [hb1]
        exact le_of_not_lt h
      · exact hy b hb1

theorem sortStrAsc_append (l : List String) (x : String) :
    sortStrAsc (l ++ [x]) = insertStrAsc x (sortStrAsc l) := by
  simp [sortStrAsc, List.foldl_append]

theorem sortStrAsc_perm (l : List String) : List.Perm (sortStrAsc l) l := by
  induction l using List.reverseRecOn with
  | nil => exact List.Perm.refl _
  | append_singleton l x ih =>
    rw [sortStrAsc_append]
    exact ((insertStrAsc_perm x _).trans (ih.cons x)).trans
      (List.perm_append_singleton x l).symm

theorem sortStrAsc_sorted (l : List String) : (sortStrAsc l).Sorted (· ≤ ·) := by
  induction l using List.reverseRecOn with
  | nil => simp [sortStrAsc]
  | append_singleton l x ih =>
    rw [sortStrAsc_append]
    exact insertStrAsc_sorted x _ ih

/-- The head and the last element of the ascending sort are the lexicographic
minimum and maximum of the input. -/
theorem sortStrAsc_bounds (l : List String) (hne : l ≠ []) :
    ∃ mn mx, (sortStrAsc l).head? = some mn ∧ (sortStrAsc l).getLast? = some mx ∧
      mn ∈ l ∧ mx ∈ l ∧ ∀ t ∈ l, mn ≤ t ∧ t ≤ mx := by
  have hperm := sortStrAsc_perm l
  have hsorted := sortStrAsc_sorted l
  have hsne : sortStrAsc l ≠ [] := by
    intro h0
    exact hne (List.eq_nil_of_length_eq_zero (by
      rw [← hperm.length_eq, h0]
      rfl))
  obtain ⟨mn, t0, hht⟩ := List.exists_cons_of_ne_nil hsne
  rcases List.eq_nil_or_concat (sortStrAsc l) with hc | ⟨ys, mx, hc0⟩
  · exact absurd hc hsne
  have hc : sortStrAsc l = ys ++ [mx] := by rw [hc0, List.concat_eq_append]
  refine ⟨mn, mx, by rw [hht, List.head?_cons], by rw [hc, List.getLast?_concat], ?_, ?_, ?_⟩
  · exact hperm.mem_iff.mp (by rw [hht]; exact List.mem_cons_self _ _)
  · exact hperm.mem_iff.mp (by rw [hc]; exact List.mem_append_right ys (List.mem_singleton.mpr rfl))
  · intro t ht
    have hts : t ∈ sortStrAsc l := hperm.mem_iff.mpr ht
    constructor
    · rw [hht] at hts hsorted
      rcases List.mem_cons.mp hts with h1 | h1
      · rw [h1]
      · exact List.rel_of_sorted_cons hsorted t h1
    · rw [hc] at hts hsorted
      rcases List.mem_append.mp hts with h1 | h1
      · exact ((List.pairwise_append.mp hsorted).2.2) t h1 mx (List.mem_singleton.mpr rfl)
      · rw [List.mem_singleton.mp h1]

/-! ## Theorems: the filtering pipeline (claims C2, C3, C10) -/

theorem sortedPlacesOf_nil (dist : DistFn) (threshold : ℚ) :
    sortedPlacesOf dist threshold [] = [] := rfl

theorem keepPlace_no_exclusion (dist : DistFn) (gr : ℚ)
    (ip : ℕ × MostVisitedPlace) : keepPlace dist gr 0 [] ip = true := by
  unfold keepPlace
  simp

theorem exclusionData_of_le (dist : DistFn) (sorted : List MostVisitedPlace)
    (excl : Bool) (topN : ℕ) (h : sorted.length ≤ topN) :
    exclusionData dist sorted excl topN = (0, []) := by
  unfold exclusionData
  rw [if_neg]
  simp [Nat.not_lt.mpr h]

theorem exclusionData_of_disabled (dist : DistFn) (sorted : List MostVisitedPlace)
    (topN : ℕ) : exclusionData dist sorted false topN = (0, []) := by
  unfold exclusionData
  rw [if_neg]
  simp

theorem exclusionData_of_gt (dist : DistFn) (sorted : List MostVisitedPlace)
    (topN : ℕ) (h : topN < sorted.length) :
    exclusionData dist sorted true topN =
      (topN, consolidateCenters dist ((sorted.take topN).filterMap
        (fun p => match p.latitude, p.longitude with
          | some la, some lo =>
              some { latitude := la, longitude := lo, visitCount := p.visitCount }
          | _, _ => none))) := by
  unfold exclusionData
  rw [if_pos]
  simp [h]

theorem filter_keep_all (dist : DistFn) (gr : ℚ) (l : List MostVisitedPlace) :
    ((l.enum.filter (keepPlace dist gr 0 [])).map (fun ip => ip.2)) = l := by
  rw [List.filter_eq_self.mpr (fun ip _ => keepPlace_no_exclusion dist gr ip)]
  exact List.enum_map_snd l

/-- Inversion of `keepPlace` on a kept place that has coordinates: its index
is not positionally excluded and it is farther than the radius from every
center. -/
theorem keepPlace_true_coords (dist : DistFn) (gr : ℚ) (n : ℕ)
    (centers : List GeofenceCenter) (i : ℕ) (p : MostVisitedPlace) (la lo : ℚ)
    (hla : p.latitude = some la) (hlo : p.longitude = some lo)
    (h : keepPlace dist gr n centers (i, p) = true) :
    ¬ i < n ∧ ∀ c ∈ centers, ¬ dist c.latitude c.longitude la lo ≤ gr := by
  unfold keepPlace at h
  by_cases hidx : i < n
  · rw [if_pos hidx] at h
    exact absurd h (by simp)
  · rw [if_neg hidx] at h
    refine ⟨hidx, ?_⟩
    simp only [hla, hlo, Option.isNone_some, Bool.or_self, Bool.false_eq_true,
      if_false, Option.getD_some] at h
    cases centers with
    | nil =>
      intro c hc
      exact absurd hc (List.not_mem_nil c)
    | cons c0 cs =>
      rw [show ((c0 :: cs : List GeofenceCenter).isEmpty) = false from rfl] at h
      rw [if_neg (by simp)] at h
      intro c hc
      have h2 := List.all_eq_true.mp h c hc
      simpa using h2

theorem filter_enumFrom_sublist (q : ℕ × MostVisitedPlace → Bool)
    (l : List MostVisitedPlace) (k : ℕ) :
    (((List.enumFrom k l).filter q).map (fun ip => ip.2)).Sublist l := by
  induction l generalizing k with
  | nil => simp
  | cons x xs ih =>
    rw [List.enumFrom_cons, List.filter_cons]
    by_cases hq : q (k, x) = true
    · rw [if_pos hq]
      exact (ih (k + 1)).cons₂ x
    · rw [if_neg (by simpa using hq)]
      exact (ih (k + 1)).cons x

theorem filter_enumFrom_drop (q : ℕ × MostVisitedPlace → Bool)
    (l : List MostVisitedPlace) (n : ℕ)
    (hq : ∀ i x, i < n → q (i, x) = false) : ∀ k,
    (((List.enumFrom k l).filter q).map (fun ip => ip.2)).Sublist
      (l.drop (n - k)) := by
  induction l with
  | nil => simp
  | cons x xs ih =>
    intro k
    by_cases hk : k < n
    · rw [List.enumFrom_cons, List.filter_cons, if_neg (by simp [hq k x hk])]
      have h1 : n - k = (n - (k + 1)) + 1 := by omega
      rw [h1, List.drop_succ_cons]
      exact ih (k + 1)
    · have h0 : n - k = 0 := by omega
      rw [h0, List.drop_zero]
      exact filter_enumFrom_sublist q (x :: xs) k

/-- C2 is false on the code: in the spec's own three-point scenario the points
cluster into exactly 2 places, and with `limit = 3`, `excludeTopN = 2` and the
home-geofence exclusion enabled the result is NOT empty — it still holds both
clusters, because the source only excludes anything when strictly more than
`excludeTopN` clusters exist. -/
theorem C2_counterexample :
    (sortedPlacesOf distL1 (1/10) threePointHistory).length = 2 ∧
    (getMostVisitedPlaces distL1 threePointHistory 3 (1/10) true (1/5) 2).length = 2 ∧
    getMostVisitedPlaces distL1 threePointHistory 3 (1/10) true (1/5) 2 ≠ [] :=
  of_decide_eq_true (by with_unfolding_all rfl)

/-- C2 amended: when the home-geofence exclusion is enabled but the number of
clusters is at most `excludeTopN`, the whole exclusion step (positional and
geofence alike) is skipped and the result is the full sorted cluster list
truncated to `limit` — empty only when the input itself is empty. -/
theorem C2_exclusion_skipped (dist : DistFn) (history : List HistoryEntry)
    (limit : ℕ) (threshold gr : ℚ) (topN : ℕ)
    (h : (sortedPlacesOf dist threshold history).length ≤ topN) :
    getMostVisitedPlaces dist history limit threshold true gr topN =
      (sortedPlacesOf dist threshold history).take limit := by
  unfold getMostVisitedPlaces
  by_cases h0 : history.length = 0
  · rw [if_pos h0]
    have hh : history = [] := List.length_eq_zero.mp h0
    subst hh
    rw [sortedPlacesOf_nil]
    simp
  · rw [if_neg h0]
    simp only [exclusionData_of_le dist _ true topN h]
    rw [filter_keep_all]

theorem C2_exclusion_skipped_witness :
    (sortedPlacesOf distL1 (1/10) threePointHistory).length ≤ 2 ∧
    getMostVisitedPlaces distL1 threePointHistory 3 (1/10) true (1/5) 2 =
      (sortedPlacesOf distL1 (1/10) threePointHistory).take 3 :=
  ⟨of_decide_eq_true (by with_unfolding_all rfl),
   C2_exclusion_skipped distL1 threePointHistory 3 (1/10) (1/5) 2
     (of_decide_eq_true (by with_unfolding_all rfl))⟩

/-- C3 is false as stated: with a single cluster and `excludeTopN = 1`, the
top-1 cluster is returned verbatim (the source excludes nothing unless
strictly more than `excludeTopN` clusters exist), so the function does return
one of the top `excludeTopN` clusters even though the exclusion is enabled. -/
theorem C3_counterexample :
    (sortedPlacesOf distL1 (1/10) soloHistory).length = 1 ∧
    getMostVisitedPlaces distL1 soloHistory 3 (1/10) true (1/5) 1 =
      sortedPlacesOf distL1 (1/10) soloHistory :=
  of_decide_eq_true (by with_unfolding_all rfl)

/-- C3 amended: the result never exceeds `limit` entries; a returned cluster
with coordinates is never within `geofenceRadius` of any consolidated
geofence center; and whenever the exclusion is enabled and strictly more than
`excludeTopN` clusters exist, the result is a sublist of the sorted cluster
list with its first `excludeTopN` entries removed. -/
theorem C3_result_respects_exclusions (dist : DistFn) (history : List HistoryEntry)
    (limit : ℕ) (threshold gr : ℚ) (excl : Bool) (topN : ℕ) :
    (getMostVisitedPlaces dist history limit threshold excl gr topN).length ≤ limit ∧
    (∀ p ∈ getMostVisitedPlaces dist history limit threshold excl gr topN,
      ∀ la lo, p.latitude = some la → p.longitude = some lo →
        ∀ c ∈ (exclusionData dist (sortedPlacesOf dist threshold history) excl topN).2,
          ¬ dist c.latitude c.longitude la lo ≤ gr) ∧
    (excl = true → topN < (sortedPlacesOf dist threshold history).length →
      (getMostVisitedPlaces dist history limit threshold excl gr topN).Sublist
        ((sortedPlacesOf dist threshold history).drop topN)) := by
  unfold getMostVisitedPlaces
  by_cases h0 : history.length = 0
  · rw [if_pos h0]
    refine ⟨by simp, by simp, fun _ _ => List.nil_sublist _⟩
  · rw [if_neg h0]
    refine ⟨List.length_take_le _ _, ?_, ?_⟩
    · intro p hp la lo hla hlo c hc
      have hp1 := List.mem_of_mem_take hp
      obtain ⟨ip, hip, hip2⟩ := List.mem_map.mp hp1
      obtain ⟨-, hkeep⟩ := List.mem_filter.mp hip
      obtain ⟨i0, p0⟩ := ip
      simp only at hip2
      subst hip2
      exact (keepPlace_true_coords dist gr _ _ i0 p0 la lo hla hlo hkeep).2 c hc
    · intro hx hgt
      subst hx
      have hed1 : (exclusionData dist (sortedPlacesOf dist threshold history)
          true topN).1 = topN := by
        rw [exclusionData_of_gt dist _ topN hgt]
      refine List.Sublist.trans (List.take_sublist _ _) ?_
      have hq : ∀ i x, i < topN →
          keepPlace dist gr
            (exclusionData dist (sortedPlacesOf dist threshold history) true topN).1
            (exclusionData dist (sortedPlacesOf dist threshold history) true topN).2
            (i, x) = false := by
        intro i x hi
        unfold keepPlace
        simp [hed1, hi]
      have hdrop := filter_enumFrom_drop _ (sortedPlacesOf dist threshold history)
        topN hq 0
      simpa using hdrop

theorem C3_result_respects_exclusions_witness :
    1 < (sortedPlacesOf distL1 (1/10) twoFarHistory).length ∧
    (getMostVisitedPlaces distL1 twoFarHistory 3 (1/10) true (1/5) 1).Sublist
      ((sortedPlacesOf distL1 (1/10) twoFarHistory).drop 1) ∧
    (getMostVisitedPlaces distL1 twoFarHistory 3 (1/10) true (1/5) 1).length ≤ 3 :=
  ⟨of_decide_eq_true (by with_unfolding_all rfl),
   (C3_result_respects_exclusions distL1 twoFarHistory 3 (1/10) (1/5) true 1).2.2
     rfl (of_decide_eq_true (by with_unfolding_all rfl)),
   (C3_result_respects_exclusions distL1 twoFarHistory 3 (1/10) (1/5) true 1).1⟩

/-- C10: with the home-geofence exclusion disabled, no exclusion of any kind
happens — the result is precisely the cluster list sorted descending by
visit count and truncated to the first `limit` entries, for every value of
`excludeTopN` and `geofenceRadius`. -/
theorem C10_disabled_geofence_returns_sorted (dist : DistFn)
    (history : List HistoryEntry) (limit : ℕ) (threshold gr : ℚ) (topN : ℕ) :
    getMostVisitedPlaces dist history limit threshold false gr topN =
      (sortedPlacesOf dist threshold history).take limit := by
  unfold getMostVisitedPlaces
  by_cases h0 : history.length = 0
  · rw [if_pos h0]
    have hh : history = [] := List.length_eq_zero.mp h0
    subst hh
    rw [sortedPlacesOf_nil]
    simp
  · rw [if_neg h0]
    simp only [exclusionData_of_disabled dist _ topN]
    rw [filter_keep_all]

/-! ## Theorems: the partition failure (claim C4) -/

/-- C4 fails on the code: on `driftHistory` (6 entries) the pre-filter cluster
list contains a single cluster holding only the last entry — the first five
entries belong to no cluster at all and the visit counts sum to 1, not 6.
The coordinate key of the sixth point collides with the key of the cluster
created by the first point, and `placeMap.set` replaces that cluster. -/

theorem driftStep1 : insertGeoEntry distL1 (1/10) [] driftE1 =
    [(driftKey, [driftE1])] :=
  by with_unfolding_all rfl

theorem driftStep2 :
    insertGeoEntry distL1 (1/10) [(driftKey, [driftE1])] driftE2 =
      [(driftKey, [driftE1, driftE2])] :=
  by with_unfolding_all rfl

theorem driftStep3 :
    insertGeoEntry distL1 (1/10) [(driftKey, [driftE1, driftE2])] driftE3 =
      [(driftKey, [driftE1, driftE2, driftE3])] :=
  by with_unfolding_all rfl

theorem driftStep4 :
    insertGeoEntry distL1 (1/10) [(driftKey, [driftE1, driftE2, driftE3])] driftE4 =
      [(driftKey, [driftE1, driftE2, driftE3, driftE4])] :=
  by with_unfolding_all rfl

theorem driftStep5 :
    insertGeoEntry distL1 (1/10)
      [(driftKey, [driftE1, driftE2, driftE3, driftE4])] driftE5 =
      [(driftKey, [driftE1, driftE2, driftE3, driftE4, driftE5])] :=
  by with_unfolding_all rfl

/-- The sixth point does not join (the drifted centroid is 0.00106 degrees
north, beyond the 0.1 km threshold), so a "new" singleton cluster is written
under the very key of the existing cluster, which is replaced wholesale. -/
theorem driftStep6 :
    insertGeoEntry distL1 (1/10)
      [(driftKey, [driftE1, driftE2, driftE3, driftE4, driftE5])] driftE6 =
      [(driftKey, [driftE6])] :=
  by with_unfolding_all rfl

theorem driftBuild : buildPlaceMap distL1 (1/10) driftHistory =
    [(driftKey, [driftE6])] := by
  unfold buildPlaceMap
  have hc : driftHistory.filter hasCoords = driftHistory :=
    by with_unfolding_all rfl
  have hnc : driftHistory.filter (fun e => ! hasCoords e) = [] :=
    by with_unfolding_all rfl
  rw [hc, hnc]
  show List.foldl (insertGeoEntry distL1 (1/10)) [] driftHistory = _
  rw [show driftHistory = [driftE1, driftE2, driftE3, driftE4, driftE5, driftE6]
    from rfl]
  rw [List.foldl_cons, driftStep1, List.foldl_cons, driftStep2,
    List.foldl_cons, driftStep3, List.foldl_cons, driftStep4,
    List.foldl_cons, driftStep5, List.foldl_cons, driftStep6, List.foldl_nil]

/-- C4 fails on the code: on `driftHistory` (6 entries) the pre-filter cluster
list contains a single cluster holding only the last entry — the first five
entries belong to no cluster at all and the visit counts sum to 1, not 6.
The coordinate key of the sixth point collides with the key of the cluster
created by the first point, and `placeMap.set` replaces that cluster. -/
theorem C4_partition_broken :
    driftHistory.length = 6 ∧
    ((placesOf distL1 (1/10) driftHistory).map (fun p => p.visitCount)).sum = 1 ∧
    (placesOf distL1 (1/10) driftHistory).map (fun p => p.entries) = [[driftE6]] := by
  refine ⟨rfl, ?_, ?_⟩
  · rw [show placesOf distL1 (1/10) driftHistory =
        (buildPlaceMap distL1 (1/10) driftHistory).map computePlace from rfl,
      driftBuild]
    with_unfolding_all rfl
  · rw [show placesOf distL1 (1/10) driftHistory =
        (buildPlaceMap distL1 (1/10) driftHistory).map computePlace from rfl,
      driftBuild]
    with_unfolding_all rfl

/-! ## Theorems: first-fit assignment (claim C6) -/

theorem scanGroups_none_iff (dist : DistFn) (threshold lat lon : ℚ)
    (e : HistoryEntry) (m : PlaceMap) :
    scanGroups dist threshold lat lon e m = none ↔
      firstFitIdx dist threshold lat lon m = none := by
  induction m with
  | nil => simp [scanGroups, firstFitIdx]
  | cons g rest ih =>
    obtain ⟨k, es⟩ := g
    unfold scanGroups firstFitIdx
    by_cases hA : (es.filter hasCoords).length = 0
    · rw [if_pos hA, if_neg (by simp [hA])]
      simp only [Option.map_eq_none']
      exact ih
    · rw [if_neg hA]
      by_cases hB : dist lat lon (avgLat (es.filter hasCoords))
          (avgLon (es.filter hasCoords)) ≤ threshold
      · rw [if_pos hB, if_pos ⟨Nat.pos_of_ne_zero hA, hB⟩]
        simp
      · rw [if_neg hB, if_neg (by
          intro hc
          exact hB hc.2)]
        simp only [Option.map_eq_none']
        exact ih

theorem scanGroups_some (dist : DistFn) (threshold lat lon : ℚ)
    (e : HistoryEntry) (m : PlaceMap) : ∀ i,
    firstFitIdx dist threshold lat lon m = some i →
      ∃ k es, m[i]? = some (k, es) ∧
        scanGroups dist threshold lat lon e m =
          some (m.take i ++ (k, es ++ [e]) :: m.drop (i + 1)) := by
  induction m with
  | nil =>
    intro i h
    simp [firstFitIdx] at h
  | cons g rest ih =>
    intro i h
    obtain ⟨k, es⟩ := g
    unfold firstFitIdx at h
    unfold scanGroups
    by_cases hA : (es.filter hasCoords).length = 0
    · rw [if_neg (by simp [hA])] at h
      rw [if_pos hA]
      obtain ⟨j, hj, hji⟩ := Option.map_eq_some'.mp h
      obtain ⟨k1, es1, hg, hscan⟩ := ih j hj
      refine ⟨k1, es1, ?_, ?_⟩
      · rw [← hji]
        simpa using hg
      · rw [hscan, ← hji]
        simp
    · rw [if_neg hA]
      by_cases hB : dist lat lon (avgLat (es.filter hasCoords))
          (avgLon (es.filter hasCoords)) ≤ threshold
      · rw [if_pos ⟨Nat.pos_of_ne_zero hA, hB⟩] at h
        have hi : i = 0 := by
          injection h with h
          exact h.symm
        subst hi
        rw [if_pos hB]
        exact ⟨k, es, by simp, by simp⟩
      · rw [if_neg (by
          intro hc
          exact hB hc.2)] at h
        rw [if_neg hB]
        obtain ⟨j, hj, hji⟩ := Option.map_eq_some'.mp h
        obtain ⟨k1, es1, hg, hscan⟩ := ih j hj
        refine ⟨k1, es1, ?_, ?_⟩
        · rw [← hji]
          simpa using hg
        · rw [hscan, ← hji]
          simp

theorem mapSet_fresh (k : PlaceKey) (v : List HistoryEntry) (m : PlaceMap)
    (h : ∀ g ∈ m, g.1 ≠ k) : mapSet k v m = m ++ [(k, v)] := by
  induction m with
  | nil => rfl
  | cons g rest ih =>
    obtain ⟨k1, v1⟩ := g
    unfold mapSet
    rw [if_neg (h (k1, v1) (List.mem_cons_self _ _)),
      ih (fun g hg => h g (List.mem_cons_of_mem _ hg))]
    rfl

/-- C6: the geo assignment step is first-fit over the groups in creation
order, against each group's current centroid, recomputed fresh from its
geo-located members.  If some group with a geo member has its centroid within
`threshold` of the candidate, the candidate is appended to the first such
group and all other groups are untouched; otherwise a fresh singleton group
keyed by the candidate's rounded coordinates is written, which appends a new
cluster whenever that key is not already present. -/
theorem C6_first_fit (dist : DistFn) (threshold : ℚ) (m : PlaceMap)
    (e : HistoryEntry) (la lo : ℚ)
    (hla : e.data.latitude = some la) (hlo : e.data.longitude = some lo) :
    (∀ i, firstFitIdx dist threshold la lo m = some i →
      ∃ k es, m[i]? = some (k, es) ∧
        insertGeoEntry dist threshold m e =
          m.take i ++ (k, es ++ [e]) :: m.drop (i + 1)) ∧
    (firstFitIdx dist threshold la lo m = none →
      insertGeoEntry dist threshold m e =
        mapSet (PlaceKey.coords (toFixed6 la) (toFixed6 lo)) [e] m) ∧
    (firstFitIdx dist threshold la lo m = none →
      (∀ g ∈ m, g.1 ≠ PlaceKey.coords (toFixed6 la) (toFixed6 lo)) →
      insertGeoEntry dist threshold m e =
        m ++ [(PlaceKey.coords (toFixed6 la) (toFixed6 lo), [e])]) := by
  have hlat : latOf e = la := by simp [latOf, hla]
  have hlon : lonOf e = lo := by simp [lonOf, hlo]
  refine ⟨?_, ?_, ?_⟩
  · intro i h
    obtain ⟨k, es, hg, hscan⟩ := scanGroups_some dist threshold la lo e m i h
    refine ⟨k, es, hg, ?_⟩
    unfold insertGeoEntry
    rw [hlat, hlon, hscan]
  · intro h
    unfold insertGeoEntry
    rw [hlat, hlon, (scanGroups_none_iff dist threshold la lo e m).mpr h]
  · intro h hfresh
    unfold insertGeoEntry
    rw [hlat, hlon, (scanGroups_none_iff dist threshold la lo e m).mpr h]
    exact mapSet_fresh _ _ m hfresh

/-- Witness for C6 at a concrete map and point: a first group whose centroid
is far, a second group whose centroid is close — the point joins the second
group; and on an empty map a fresh singleton cluster is appended. -/
theorem C6_first_fit_witness :
    insertGeoEntry distL1 (1/10)
      [ (PlaceKey.coords (toFixed6 19) (toFixed6 (-99)),
          [mkGeoEntry "f" "2025-01-01" "07:00" "F" 19 (-99)]),
        (PlaceKey.coords (toFixed6 (211/10)) (toFixed6 (-1016/10)),
          [mkGeoEntry "g" "2025-01-01" "07:30" "G" (211/10) (-1016/10)]) ]
      (mkGeoEntry "h" "2025-01-01" "08:00" "H" (211/10) (-1016/10)) =
      [ (PlaceKey.coords (toFixed6 19) (toFixed6 (-99)),
          [mkGeoEntry "f" "2025-01-01" "07:00" "F" 19 (-99)]),
        (PlaceKey.coords (toFixed6 (211/10)) (toFixed6 (-1016/10)),
          [mkGeoEntry "g" "2025-01-01" "07:30" "G" (211/10) (-1016/10),
           mkGeoEntry "h" "2025-01-01" "08:00" "H" (211/10) (-1016/10)]) ] ∧
    insertGeoEntry distL1 (1/10) []
      (mkGeoEntry "h" "2025-01-01" "08:00" "H" (211/10) (-1016/10)) =
      [ (PlaceKey.coords (toFixed6 (211/10)) (toFixed6 (-1016/10)),
          [mkGeoEntry "h" "2025-01-01" "08:00" "H" (211/10) (-1016/10)]) ] := by
  constructor
  · have h := (C6_first_fit distL1 (1/10)
      [ (PlaceKey.coords (toFixed6 19) (toFixed6 (-99)),
          [mkGeoEntry "f" "2025-01-01" "07:00" "F" 19 (-99)]),
        (PlaceKey.coords (toFixed6 (211/10)) (toFixed6 (-1016/10)),
          [mkGeoEntry "g" "2025-01-01" "07:30" "G" (211/10) (-1016/10)]) ]
      (mkGeoEntry "h" "2025-01-01" "08:00" "H" (211/10) (-1016/10))
      (211/10) (-1016/10) rfl rfl).1 1
      (of_decide_eq_true (by with_unfolding_all rfl))
    obtain ⟨k, es, hg, hres⟩ := h
    have hke : (k, es) =
        (PlaceKey.coords (toFixed6 (211/10)) (toFixed6 (-1016/10)),
         [mkGeoEntry "g" "2025-01-01" "07:30" "G" (211/10) (-1016/10)]) :=
      Option.some_injective _ (hg.symm.trans (by simp))
    injection hke with hk hes
    rw [hres, hk, hes]
    rfl
  · have h := (C6_first_fit distL1 (1/10) []
      (mkGeoEntry "h" "2025-01-01" "08:00" "H" (211/10) (-1016/10))
      (211/10) (-1016/10) rfl rfl).2.2 rfl (by simp)
    rw [h]
    rfl

/-! ## Theorems: the representative label (claim C8) -/

theorem mem_setAdd (acc : List String) (x s : String) :
    s ∈ setAdd acc x ↔ s ∈ acc ∨ s = x := by
  unfold setAdd
  by_cases h : x ∈ acc
  · rw [if_pos h]
    constructor
    · exact fun h2 => Or.inl h2
    · intro h2
      rcases h2 with h2 | h2
      · exact h2
      · rw [h2]
        exact h
  · rw [if_neg h]
    simp

theorem mem_insertionOrderedSet_aux (l : List String) : ∀ (acc : List String)
    (s : String), s ∈ l.foldl setAdd acc ↔ s ∈ acc ∨ s ∈ l := by
  induction l with
  | nil => simp
  | cons x xs ih =>
    intro acc s
    rw [List.foldl_cons, ih (setAdd acc x) s, mem_setAdd]
    constructor
    · rintro ((h | h) | h)
      · exact Or.inl h
      · exact Or.inr (by rw [h]; exact List.mem_cons_self x xs)
      · exact Or.inr (List.mem_cons_of_mem x h)
    · rintro (h | h)
      · exact Or.inl (Or.inl h)
      · rcases List.mem_cons.mp h with h | h
        · exact Or.inl (Or.inr h)
        · exact Or.inr h

theorem mem_insertionOrderedSet (l : List String) (s : String) :
    s ∈ insertionOrderedSet l ↔ s ∈ l := by
  unfold insertionOrderedSet
  rw [mem_insertionOrderedSet_aux l [] s]
  simp

theorem nodup_setAdd (acc : List String) (x : String) (h : acc.Nodup) :
    (setAdd acc x).Nodup := by
  unfold setAdd
  by_cases hx : x ∈ acc
  · rw [if_pos hx]
    exact h
  · rw [if_neg hx]
    rw [List.nodup_append]
    exact ⟨h, List.nodup_singleton x, by simpa using hx⟩

theorem nodup_insertionOrderedSet (l : List String) :
    (insertionOrderedSet l).Nodup := by
  unfold insertionOrderedSet
  have h : ∀ acc : List String, acc.Nodup → (l.foldl setAdd acc).Nodup := by
    induction l with
    | nil => exact fun acc h => h
    | cons x xs ih =>
      intro acc hacc
      rw [List.foldl_cons]
      exact ih _ (nodup_setAdd acc x hacc)
  exact h [] List.nodup_nil

theorem find?_setAdd (p : String → Bool) (acc : List String) (x : String) :
    (setAdd acc x).find? p =
      ((acc.find? p).orElse (fun _ => if p x then some x else none)) := by
  unfold setAdd
  by_cases hx : x ∈ acc
  · rw [if_pos hx]
    rcases hf : acc.find? p with _ | v
    · have hnp : ¬ p x = true := List.find?_eq_none.mp hf x hx
      simp [Option.orElse, hnp]
    · simp [Option.orElse]
  · rw [if_neg hx]
    rcases hf : acc.find? p with _ | v
    · rw [List.find?_append, hf]
      cases hp : p x <;> simp [Option.orElse, List.find?, hp]
    · rw [List.find?_append, hf]
      simp [Option.orElse]

theorem find?_foldl_setAdd (p : String → Bool) (l : List String) :
    ∀ acc : List String,
    (l.foldl setAdd acc).find? p = ((acc.find? p).orElse (fun _ => l.find? p)) := by
  induction l with
  | nil =>
    intro acc
    rw [List.foldl_nil]
    rcases hf : acc.find? p with _ | v <;> rfl
  | cons x xs ih =>
    intro acc
    rw [List.foldl_cons, ih (setAdd acc x), find?_setAdd]
    rcases hf : acc.find? p with _ | v
    · by_cases hp : p x = true
      · simp [Option.orElse, hp, List.find?]
      · simp only [Bool.not_eq_true] at hp
        simp [Option.orElse, hp, List.find?]
    · simp [Option.orElse]

theorem find?_insertionOrderedSet (p : String → Bool) (l : List String) :
    (insertionOrderedSet l).find? p = l.find? p := by
  unfold insertionOrderedSet
  rw [find?_foldl_setAdd p l []]
  simp [Option.orElse, List.find?]

theorem insertionOrderedSet_append_singleton (l : List String) (x : String) :
    insertionOrderedSet (l ++ [x]) = setAdd (insertionOrderedSet l) x := by
  unfold insertionOrderedSet
  rw [List.foldl_append]
  rfl

theorem bumpCount_map (ds : List String) (g : String → ℕ) (s : String)
    (hnd : ds.Nodup) :
    bumpCount (ds.map (fun t => (t, g t))) s =
      if s ∈ ds then ds.map (fun t => (t, if t = s then g t + 1 else g t))
      else ds.map (fun t => (t, g t)) ++ [(s, 1)] := by
  induction ds with
  | nil => simp [bumpCount]
  | cons d rest ih =>
    rcases List.nodup_cons.mp hnd with ⟨hd, hrest⟩
    rw [List.map_cons]
    unfold bumpCount
    by_cases hds : d = s
    · subst hds
      rw [if_pos rfl, if_pos (List.mem_cons_self d rest)]
      rw [List.map_cons, if_pos rfl]
      have hmapeq : rest.map (fun t => (t, if t = d then g t + 1 else g t)) =
          rest.map (fun t => (t, g t)) :=
        List.map_congr_left (fun t ht => by
          rw [if_neg (show ¬ t = d from fun hc => hd (by rw [← hc]; exact ht))])
      rw [hmapeq]
    · rw [if_neg hds, ih hrest]
      by_cases hs : s ∈ rest
      · rw [if_pos hs, if_pos (List.mem_cons_of_mem d hs), List.map_cons,
          if_neg hds]
      · rw [if_neg hs, if_neg (by
          intro hc
          rcases List.mem_cons.mp hc with hc | hc
          · exact hds hc.symm
          · exact hs hc)]
        rfl

theorem labelCountsList_spec (ls : List String) :
    ls.foldl bumpCount [] =
      (insertionOrderedSet ls).map (fun t => (t, ls.count t)) := by
  induction ls using List.reverseRecOn with
  | nil => rfl
  | append_singleton l x ih =>
    rw [List.foldl_append, List.foldl_cons, List.foldl_nil, ih,
      bumpCount_map _ _ _ (nodup_insertionOrderedSet l),
      insertionOrderedSet_append_singleton]
    by_cases hx : x ∈ insertionOrderedSet l
    · rw [if_pos hx]
      have hset : setAdd (insertionOrderedSet l) x = insertionOrderedSet l := by
        unfold setAdd
        rw [if_pos hx]
      rw [hset]
      refine List.map_congr_left (fun t ht => ?_)
      rw [List.count_append, List.count_singleton]
      by_cases hts : t = x
      · subst hts
        simp
      · have hxt : ¬ (x == t) = true := by
          simp only [beq_iff_eq]
          exact fun hc => hts hc.symm
        rw [if_neg hts, if_neg hxt, Nat.add_zero]
    · rw [if_neg hx]
      have hset : setAdd (insertionOrderedSet l) x = insertionOrderedSet l ++ [x] := by
        unfold setAdd
        rw [if_neg hx]
      rw [hset, List.map_append, List.map_singleton]
      have hcx : l.count x = 0 :=
        List.count_eq_zero.mpr (fun hc => hx ((mem_insertionOrderedSet l x).mpr hc))
      have h2 : (l ++ [x]).count x = 1 := by
        rw [List.count_append, hcx, List.count_singleton, if_pos (by simp)]
      have h1 : (insertionOrderedSet l).map (fun t => (t, (l ++ [x]).count t)) =
          (insertionOrderedSet l).map (fun t => (t, l.count t)) :=
        List.map_congr_left (fun t ht => by
          rw [List.count_append, List.count_singleton,
            if_neg (show ¬ (x == t) = true from by
              simp only [beq_iff_eq]
              intro hc
              exact hx (by rw [hc]; exact ht))]
          rw [Nat.add_zero])
      rw [h1, h2]

theorem all_map_pair (ds : List String) (f : String → String × ℕ)
    (p : String × ℕ → Bool) : (ds.map f).all p = ds.all (fun t => p (f t)) := by
  induction ds with
  | nil => rfl
  | cons d rest ih => simp [ih]

theorem all_congr_mem (l1 l2 : List String) (p : String → Bool)
    (h : ∀ x, x ∈ l1 ↔ x ∈ l2) : l1.all p = l2.all p := by
  by_cases h1 : l1.all p = true
  · rw [h1]
    symm
    rw [List.all_eq_true]
    intro x hx
    exact List.all_eq_true.mp h1 x ((h x).mpr hx)
  · have h1f : l1.all p = false := by
      revert h1
      cases l1.all p <;> simp
    rw [h1f]
    symm
    rcases List.all_eq_false.mp (by rw [← h1f]) with ⟨x, hx, hpx⟩
    exact List.all_eq_false.mpr ⟨x, (h x).mp hx, hpx⟩

theorem exists_first_max (g : String → ℕ) (ls : List String) (hne : ls ≠ []) :
    ∃ t ∈ ls, ∀ u ∈ ls, g u ≤ g t := by
  induction ls with
  | nil => exact absurd rfl hne
  | cons x xs ih =>
    cases xs with
    | nil =>
      refine ⟨x, List.mem_cons_self x [], ?_⟩
      intro u hu
      rcases List.mem_cons.mp hu with h | h
      · rw [h]
      · exact absurd h (List.not_mem_nil u)
    | cons y ys =>
      obtain ⟨t, ht, hmax⟩ := ih (by simp)
      by_cases hc : g t ≤ g x
      · refine ⟨x, List.mem_cons_self x _, ?_⟩
        intro u hu
        rcases List.mem_cons.mp hu with h | h
        · rw [h]
        · exact le_trans (hmax u h) hc
      · refine ⟨t, List.mem_cons_of_mem x ht, ?_⟩
        intro u hu
        rcases List.mem_cons.mp hu with h | h
        · rw [h]
          exact le_of_not_le hc
        · exact hmax u h

/-- The head of the stable descending sort of the label counts is the first
label attaining the maximal multiplicity. -/
theorem mostCommonLabel_eq_firstMax (entries : List HistoryEntry)
    (hne : entries ≠ []) :
    firstMaxLabel (entries.map countedLabel) = some (mostCommonLabel entries) := by
  set ls := entries.map countedLabel with hls
  have hlsne : ls ≠ [] := by
    rw [hls]
    simpa using hne
  set cl := labelCounts entries with hcl
  have hclspec : cl = (insertionOrderedSet ls).map (fun t => (t, ls.count t)) := by
    rw [hcl]
    unfold labelCounts
    rw [← hls]
    exact labelCountsList_spec ls
  have hclne : cl ≠ [] := by
    rw [hclspec]
    intro hc
    rcases List.map_eq_nil_iff.mp hc with h0
    obtain ⟨s, hs⟩ := List.exists_mem_of_ne_nil ls hlsne
    exact absurd ((mem_insertionOrderedSet ls s).mpr hs) (by rw [h0]; exact List.not_mem_nil s)
  have hhead := sortCountDesc_head (fun p => p.2) cl hclne
  have hfind : cl.find? (fun p => cl.all (fun q => q.2 ≤ p.2)) =
      (ls.find? (fun x => ls.all (fun u => decide (ls.count u ≤ ls.count x)))).map
        (fun t => (t, ls.count t)) := by
    rw [hclspec, List.find?_map]
    have hp : ((fun p => (insertionOrderedSet ls).map
        (fun t => (t, ls.count t)) |>.all (fun q => q.2 ≤ p.2)) ∘
          (fun t => (t, ls.count t))) =
        (fun x => ls.all (fun u => decide (ls.count u ≤ ls.count x))) := by
      funext x
      show ((insertionOrderedSet ls).map (fun t => (t, ls.count t))).all
          (fun q => q.2 ≤ ls.count x) = _
      rw [all_map_pair]
      exact all_congr_mem _ _ _ (mem_insertionOrderedSet ls)
    rw [← hclspec]
    rw [hclspec, hp, find?_insertionOrderedSet]
  have hex : ∃ t ∈ ls, (fun x => ls.all
      (fun u => decide (ls.count u ≤ ls.count x))) t = true := by
    obtain ⟨t, ht, hmax⟩ := exists_first_max (fun u => ls.count u) ls hlsne
    exact ⟨t, ht, List.all_eq_true.mpr (fun u hu => by
      simpa using hmax u hu)⟩
  rcases hf : ls.find? (fun x => ls.all (fun u =>
      decide (ls.count u ≤ ls.count x))) with _ | t0
  · obtain ⟨t, ht, hpt⟩ := hex
    exact absurd hpt (by simpa using List.find?_eq_none.mp hf t ht)
  · unfold firstMaxLabel
    rw [hf]
    unfold mostCommonLabel
    rw [← hcl]
    have hh : (sortCountDesc (fun p => p.2) cl).head? = some (t0, ls.count t0) := by
      rw [hhead, hfind, hf]
      rfl
    rcases hsort : sortCountDesc (fun p => p.2) cl with _ | ⟨h0, _⟩
    · rw [hsort] at hh
      exact absurd hh (by simp)
    · rw [hsort] at hh
      rw [List.head?_cons] at hh
      have hh0 := Option.some_injective _ hh
      rw [hsort, List.headD_cons, hh0]

/-- C8 is false as stated: in a cluster whose members carry labels "", "" and
"Cafe", the only non-empty label is "Cafe", yet the reported location is
"Ubicación desconocida" — the code counts empty labels as the placeholder
string and lets it win the frequency vote, so the reported label is not the
most frequent NON-EMPTY label. -/
theorem C8_counterexample :
    (getMostVisitedPlaces distL1 emptyLabelHistory 3 (1/10) true (1/5) 2).map
      (fun p => p.location) = ["Ubicación desconocida"] ∧
    (getMostVisitedPlaces distL1 emptyLabelHistory 3 (1/10) true (1/5) 2).map
      (fun p => (p.entries.map (fun e => e.data.location)).filter
        (fun s => ! decide (s = ""))) = [["Cafe"]] := by
  constructor
  · with_unfolding_all rfl
  · with_unfolding_all rfl

theorem computePlace_location (k : PlaceKey) (entries : List HistoryEntry) :
    (computePlace (k, entries)).location =
      if entries.length > 1 then mostCommonLabel entries
      else if (entries.headD dummyEntry).data.location = ""
        then "Ubicación desconocida"
        else (entries.headD dummyEntry).data.location := rfl

/-- C8 amended: for a multi-member cluster the reported location is the most
frequent *counted* label — each member contributes its trimmed label, with
the empty result replaced by the placeholder "Ubicación desconocida" — and
ties are broken in favour of the first counted occurrence (single-member
clusters report the raw label, or the placeholder if it is empty). -/
theorem C8_most_frequent_counted_label (k : PlaceKey)
    (entries : List HistoryEntry) (h : 1 < entries.length) :
    firstMaxLabel (entries.map countedLabel) =
      some ((computePlace (k, entries)).location) := by
  rw [computePlace_location, if_pos h]
  refine mostCommonLabel_eq_firstMax entries ?_
  intro h0
  rw [h0] at h
  simp at h

theorem C8_most_frequent_counted_label_witness :
    1 < emptyLabelHistory.length ∧
    firstMaxLabel (emptyLabelHistory.map countedLabel) =
      some ((computePlace (PlaceKey.coords (false, 0) (false, 0),
        emptyLabelHistory)).location) :=
  ⟨by decide,
   C8_most_frequent_counted_label (PlaceKey.coords (false, 0) (false, 0))
     emptyLabelHistory (by decide)⟩

/-! ## Theorems: the time range (claim C9) -/

/-- C9 is false as stated: a member whose time field encodes the range
"08:00 to 09:00" contributes nothing — the code only accepts strings matching
`^\d2:\d2$` in full, so the cluster's `timeRange` is `null` even though the
claim says the range's start time "08:00" should count (making
timeRange = (08:00, 08:00)). -/

theorem C9_counterexample :
    (getMostVisitedPlaces distL1 rangeTimeHistory 3 (1/10) true (1/5) 2).map
      (fun p => p.timeRange) = [none] ∧
    (getMostVisitedPlaces distL1 rangeTimeHistory 3 (1/10) true (1/5) 2).map
      (fun p => p.entries.map (fun e => e.data.time)) = [["08:00 to 09:00"]] := by
  constructor
  · with_unfolding_all rfl
  · with_unfolding_all rfl

theorem computePlace_timeRange (k : PlaceKey) (entries : List HistoryEntry) :
    (computePlace (k, entries)).timeRange =
      (if ((entries.map (fun e => e.data.time)).filter isHHMM).length = 0 then none
       else some
        ((sortStrAsc ((entries.map (fun e => e.data.time)).filter isHHMM)).headD "",
         (sortStrAsc ((entries.map (fun e => e.data.time)).filter isHHMM)).getLastD
           "")) := rfl

/-- C9 amended: only member times matching the full pattern `HH:MM` (exactly
two digits, a colon, two digits) are counted — a range-encoded time such as
"HH:MM to HH:MM" is ignored entirely, not represented by its start time.
`timeRange` is null exactly when no member's time matches that pattern, and
otherwise holds the lexicographic minimum and maximum of the matching
times. -/
theorem C9_time_range_of_matching_times (k : PlaceKey)
    (entries : List HistoryEntry) :
    ((computePlace (k, entries)).timeRange = none ↔
      (entries.map (fun e => e.data.time)).filter isHHMM = []) ∧
    ((entries.map (fun e => e.data.time)).filter isHHMM ≠ [] →
      ∃ mn mx, (computePlace (k, entries)).timeRange = some (mn, mx) ∧
        mn ∈ (entries.map (fun e => e.data.time)).filter isHHMM ∧
        mx ∈ (entries.map (fun e => e.data.time)).filter isHHMM ∧
        ∀ t ∈ (entries.map (fun e => e.data.time)).filter isHHMM,
          mn ≤ t ∧ t ≤ mx) := by
  have hbounds : ∀ h : (entries.map (fun e => e.data.time)).filter isHHMM ≠ [],
      ∃ mn mx, (computePlace (k, entries)).timeRange = some (mn, mx) ∧
        mn ∈ (entries.map (fun e => e.data.time)).filter isHHMM ∧
        mx ∈ (entries.map (fun e => e.data.time)).filter isHHMM ∧
        ∀ t ∈ (entries.map (fun e => e.data.time)).filter isHHMM,
          mn ≤ t ∧ t ≤ mx := by
    intro h
    obtain ⟨mn, mx, hhd, hlast, hmn, hmx, hb⟩ :=
      sortStrAsc_bounds ((entries.map (fun e => e.data.time)).filter isHHMM) h
    refine ⟨mn, mx, ?_, hmn, hmx, hb⟩
    rw [computePlace_timeRange,
      if_neg (fun h0 => h (List.length_eq_zero.mp h0)),
      List.headD_eq_head?, List.getLastD_eq_getLast?, hhd, hlast]
    rfl
  constructor
  · constructor
    · intro h0
      by_cases h : (entries.map (fun e => e.data.time)).filter isHHMM = []
      · exact h
      · obtain ⟨mn, mx, hsome, -⟩ := hbounds h
        rw [h0] at hsome
        exact absurd hsome (by simp)
    · intro h
      rw [computePlace_timeRange, if_pos (by rw [h]; rfl)]
  · exact hbounds

theorem C9_time_range_witness :
    ([ mkGeoEntry "w1" "2025-01-02" "09:30" "W" 0 0,
       mkGeoEntry "w2" "2025-01-02" "08:15" "W" 0 0,
       mkGeoEntry "w3" "2025-01-02" "8:15 to 9:00" "W" 0 0 ].map
         (fun e => e.data.time)).filter isHHMM ≠ [] ∧
    (∃ mn mx,
      (computePlace (PlaceKey.coords (false, 0) (false, 0),
        [ mkGeoEntry "w1" "2025-01-02" "09:30" "W" 0 0,
          mkGeoEntry "w2" "2025-01-02" "08:15" "W" 0 0,
          mkGeoEntry "w3" "2025-01-02" "8:15 to 9:00" "W" 0 0 ])).timeRange =
          some (mn, mx) ∧
      mn ∈ ([ mkGeoEntry "w1" "2025-01-02" "09:30" "W" 0 0,
              mkGeoEntry "w2" "2025-01-02" "08:15" "W" 0 0,
              mkGeoEntry "w3" "2025-01-02" "8:15 to 9:00" "W" 0 0 ].map
                (fun e => e.data.time)).filter isHHMM ∧
      mx ∈ ([ mkGeoEntry "w1" "2025-01-02" "09:30" "W" 0 0,
              mkGeoEntry "w2" "2025-01-02" "08:15" "W" 0 0,
              mkGeoEntry "w3" "2025-01-02" "8:15 to 9:00" "W" 0 0 ].map
                (fun e => e.data.time)).filter isHHMM ∧
      ∀ t ∈ ([ mkGeoEntry "w1" "2025-01-02" "09:30" "W" 0 0,
               mkGeoEntry "w2" "2025-01-02" "08:15" "W" 0 0,
               mkGeoEntry "w3" "2025-01-02" "8:15 to 9:00" "W" 0 0 ].map
                 (fun e => e.data.time)).filter isHHMM,
        mn ≤ t ∧ t ≤ mx) :=
  ⟨by decide,
   (C9_time_range_of_matching_times (PlaceKey.coords (false, 0) (false, 0))
     [ mkGeoEntry "w1" "2025-01-02" "09:30" "W" 0 0,
       mkGeoEntry "w2" "2025-01-02" "08:15" "W" 0 0,
       mkGeoEntry "w3" "2025-01-02" "8:15 to 9:00" "W" 0 0 ]).2 (by decide)⟩

/-! ## Theorems: the consolidation pass (claim C7) -/

theorem qInner_append_irrel (dist : DistFn) (centers : List GeofenceCenter)
    (ps : List ℕ) (current : GeofenceCenter) (a x : ℕ) (hne : x ≠ a) :
    qInner dist centers (ps ++ [a]) current x = qInner dist centers ps current x := by
  unfold qInner
  have h : decide (x ∈ ps ++ [a]) = decide (x ∈ ps) := by
    simp [List.mem_append, hne]
  rw [h]

theorem innerFold_spec (dist : DistFn) (centers : List GeofenceCenter)
    (current : GeofenceCenter) (L : List ℕ) :
    ∀ (cs : List GeofenceCenter) (ps : List ℕ), L.Pairwise (· < ·) →
      L.foldl (innerStep dist centers current) (cs, ps) =
        (cs ++ (L.filter (qInner dist centers ps current)).filterMap
            (fun j => centers[j]?),
         ps ++ L.filter (qInner dist centers ps current)) := by
  induction L with
  | nil =>
    intro cs ps _
    simp
  | cons j rest ih =>
    intro cs ps hpw
    rcases List.pairwise_cons.mp hpw with ⟨hlt, hpw2⟩
    rw [List.foldl_cons]
    by_cases hjp : j ∈ ps
    · have hstep : innerStep dist centers current (cs, ps) j = (cs, ps) := by
        unfold innerStep
        rw [if_pos hjp]
      have hq : qInner dist centers ps current j = false := by
        simp [qInner, hjp]
      rw [hstep, ih cs ps hpw2, List.filter_cons, hq]
      simp
    · rcases hget : centers[j]? with _ | o
      · have hstep : innerStep dist centers current (cs, ps) j = (cs, ps) := by
          simp [innerStep, hjp, hget]
        have hq : qInner dist centers ps current j = false := by
          simp [qInner, withinOpt, hget]
        rw [hstep, ih cs ps hpw2, List.filter_cons, hq]
        simp
      · by_cases hd : dist current.latitude current.longitude
            o.latitude o.longitude ≤ (2⁻¹ : ℚ)
        · have hstep : innerStep dist centers current (cs, ps) j =
              (cs ++ [o], ps ++ [j]) := by
            simp [innerStep, hjp, hget, hd]
          have hq : qInner dist centers ps current j = true := by
            simp [qInner, withinOpt, hget, hjp, hd]
          have hcongr : rest.filter (qInner dist centers (ps ++ [j]) current) =
              rest.filter (qInner dist centers ps current) :=
            List.filter_congr (fun x hx =>
              qInner_append_irrel dist centers ps current j x
                (Nat.ne_of_gt (List.rel_of_pairwise_cons hpw hx)))
          rw [hstep, ih (cs ++ [o]) (ps ++ [j]) hpw2, hcongr,
            List.filter_cons, hq, if_pos rfl]
          simp [List.filterMap_cons, hget]
        · have hstep : innerStep dist centers current (cs, ps) j = (cs, ps) := by
            simp [innerStep, hjp, hget, hd]
          have hq : qInner dist centers ps current j = false := by
            simp [qInner, withinOpt, hget, hd]
          rw [hstep, ih cs ps hpw2, List.filter_cons, hq]
          simp

theorem filterMap_getElem_filter (centers : List GeofenceCenter)
    (P : GeofenceCenter → Bool) (L : List ℕ) :
    (L.filterMap (fun j => centers[j]?)).filter P =
      (L.filter (fun j =>
        match centers[j]? with
        | none => false
        | some o => P o)).filterMap (fun j => centers[j]?) := by
  induction L with
  | nil => rfl
  | cons j rest ih =>
    rcases hget : centers[j]? with _ | o
    · simp [List.filterMap_cons, List.filter_cons, hget, ih]
    · by_cases hp : P o = true
      · simp [List.filterMap_cons, List.filter_cons, hget, hp, ih]
      · have hp2 : P o = false := by
          revert hp
          cases P o <;> simp
        simp [List.filterMap_cons, List.filter_cons, hget, hp2, ih]

theorem filterMap_getElem_range (centers : List GeofenceCenter) :
    ∀ (m a : ℕ), a + m = centers.length →
      (List.range' a m).filterMap (fun j => centers[j]?) = centers.drop a := by
  intro m
  induction m with
  | zero =>
    intro a ha
    have haa : a = centers.length := by omega
    rw [haa, List.drop_length]
    rfl
  | succ m ih =>
    intro a ha
    have han : a < centers.length := by omega
    rw [List.range'_succ, List.filterMap_cons,
      List.getElem?_eq_getElem han]
    rw [ih (a + 1) (by omega), List.drop_eq_getElem_cons han]

theorem outerFold_spec (dist : DistFn) (centers : List GeofenceCenter) :
    ∀ (m a : ℕ), a + m = centers.length →
    ∀ (out : List GeofenceCenter) (ps : List ℕ),
      ((List.range' a m).foldl (outerStep dist centers) (out, ps)).1 =
        out ++ greedyConsolidate dist (pendCenters centers ps (List.range' a m)) := by
  intro m
  induction m with
  | zero =>
    intro a ha out ps
    simp [pendCenters, greedyConsolidate]
  | succ m ih =>
    intro a ha out ps
    have han : a < centers.length := by omega
    rw [List.range'_succ, List.foldl_cons]
    by_cases hap : a ∈ ps
    · have hstep : outerStep dist centers (out, ps) a = (out, ps) := by
        unfold outerStep
        rw [if_pos hap]
      have hpend : pendCenters centers ps (a :: List.range' (a + 1) m) =
          pendCenters centers ps (List.range' (a + 1) m) := by
        unfold pendCenters
        rw [List.filter_cons]
        simp [hap]
      rw [hstep, hpend]
      exact ih (a + 1) (by omega) out ps
    · have hget : centers[a]? = some centers[a] := List.getElem?_eq_getElem han
      have hm : centers.length - (a + 1) = m := by omega
      have hpw : (List.range' (a + 1) m).Pairwise (· < ·) :=
        List.pairwise_lt_range' (a + 1) m
      have hscan : collectNearby dist centers centers[a] a (ps ++ [a]) =
          (centers[a] ::
            ((List.range' (a + 1) m).filter
              (qInner dist centers ps centers[a])).filterMap (fun j => centers[j]?),
           (ps ++ [a]) ++ (List.range' (a + 1) m).filter
              (qInner dist centers ps centers[a])) := by
        unfold collectNearby
        rw [hm, innerFold_spec dist centers centers[a] (List.range' (a + 1) m)
          [centers[a]] (ps ++ [a]) hpw]
        have hcongr : (List.range' (a + 1) m).filter
            (qInner dist centers (ps ++ [a]) centers[a]) =
            (List.range' (a + 1) m).filter (qInner dist centers ps centers[a]) :=
          List.filter_congr (fun x hx =>
            qInner_append_irrel dist centers ps centers[a] a x
              (by
                have h1 := (List.mem_range'_1.mp hx).1
                omega))
        rw [hcongr]
        rfl
      have hstep : outerStep dist centers (out, ps) a =
          (out ++ [if 0 < (((List.range' (a + 1) m).filter
                (qInner dist centers ps centers[a])).filterMap
                  (fun j => centers[j]?)).length
            then weightedCenter (centers[a] ::
              ((List.range' (a + 1) m).filter
                (qInner dist centers ps centers[a])).filterMap
                  (fun j => centers[j]?))
            else centers[a]],
           (ps ++ [a]) ++ (List.range' (a + 1) m).filter
              (qInner dist centers ps centers[a])) := by
        unfold outerStep
        rw [if_neg hap, hget]
        simp only [hscan]
        refine congrArg (fun z => (out ++ [z],
          (ps ++ [a]) ++ (List.range' (a + 1) m).filter
            (qInner dist centers ps centers[a]))) ?_
        refine if_congr ?_ rfl rfl
        simp [List.length_cons]
      rw [hstep, ih (a + 1) (by omega)]
      have hpendc : pendCenters centers ps (a :: List.range' (a + 1) m) =
          centers[a] :: pendCenters centers ps (List.range' (a + 1) m) := by
        unfold pendCenters
        rw [List.filter_cons]
        rw [if_pos (by simp [hap])]
        rw [List.filterMap_cons, hget]
      rw [hpendc]
      have hnear : (pendCenters centers ps (List.range' (a + 1) m)).filter
          (fun o => decide (dist centers[a].latitude centers[a].longitude
            o.latitude o.longitude ≤ 1/2)) =
          ((List.range' (a + 1) m).filter
            (qInner dist centers ps centers[a])).filterMap (fun j => centers[j]?) := by
        unfold pendCenters
        rw [filterMap_getElem_filter, List.filter_filter]
        refine congrArg (List.filterMap (fun j => centers[j]?))
          (List.filter_congr (fun j hj => ?_))
        unfold qInner withinOpt
        cases hg : centers[j]? <;> simp [Bool.and_comm]
      have hfar : pendCenters centers
          ((ps ++ [a]) ++ (List.range' (a + 1) m).filter
            (qInner dist centers ps centers[a])) (List.range' (a + 1) m) =
          (pendCenters centers ps (List.range' (a + 1) m)).filter
            (fun o => ! decide (dist centers[a].latitude centers[a].longitude
              o.latitude o.longitude ≤ 1/2)) := by
        unfold pendCenters
        rw [filterMap_getElem_filter, List.filter_filter]
        refine congrArg (List.filterMap (fun j => centers[j]?))
          (List.filter_congr (fun j hj => ?_))
        have hjm := List.mem_range'_1.mp hj
        have hjn : j < centers.length := by omega
        have hja : ¬ j = a := by omega
        have hgj : centers[j]? = some centers[j] := List.getElem?_eq_getElem hjn
        rw [hgj]
        simp only [List.mem_append, List.mem_filter, List.mem_singleton,
          qInner, withinOpt, hgj, hja, hj]
        by_cases h1 : j ∈ ps <;>
          by_cases h2 : dist centers[a].latitude centers[a].longitude
            centers[j].latitude centers[j].longitude ≤ 1/2 <;>
            simp [h1, h2, hja]
      rw [show greedyConsolidate dist
          (centers[a] :: pendCenters centers ps (List.range' (a + 1) m)) =
          (if 0 < ((pendCenters centers ps (List.range' (a + 1) m)).filter
              (fun o => decide (dist centers[a].latitude centers[a].longitude
                o.latitude o.longitude ≤ 1/2))).length
           then weightedCenter (centers[a] ::
             (pendCenters centers ps (List.range' (a + 1) m)).filter
              (fun o => decide (dist centers[a].latitude centers[a].longitude
                o.latitude o.longitude ≤ 1/2)))
           else centers[a]) ::
            greedyConsolidate dist
              ((pendCenters centers ps (List.range' (a + 1) m)).filter
                (fun o => ! decide (dist centers[a].latitude centers[a].longitude
                  o.latitude o.longitude ≤ 1/2))) from by
        rw [greedyConsolidate]]
      rw [hnear, hfar]
      simp

/-- C7: the source's consolidation (index loops over a shared processed set)
is exactly the single greedy pass described by the spec — scan centers in
order, group each not-yet-processed center with every still-unprocessed
center within the merge radius of the center itself, replace a group of more
than one center by the visit-count-weighted centroid with summed weight, and
never revisit a group; and on `nonFixpointCenters` the pass leaves two
centers within the merge radius of each other, confirming that it is not
iterated to a fixed point. -/
theorem C7_single_greedy_pass (dist : DistFn) (centers : List GeofenceCenter) :
    mergeCentersLoop dist centers = greedyConsolidate dist centers ∧
    consolidateCenters dist centers = greedyConsolidate dist centers ∧
    (consolidateCenters distL1 nonFixpointCenters =
      [ { latitude := 3/1000, longitude := 0, visitCount := 4 },
        { latitude := 75/10000, longitude := 0, visitCount := 2 } ] ∧
     distL1 (3/1000) 0 (75/10000) 0 ≤ 1/2) := by
  have hloop : mergeCentersLoop dist centers = greedyConsolidate dist centers := by
    unfold mergeCentersLoop
    rw [List.range_eq_range',
      outerFold_spec dist centers centers.length 0 (by omega) [] []]
    have hpend : pendCenters centers [] (List.range' 0 centers.length) = centers := by
      unfold pendCenters
      rw [List.filter_congr (fun j _ => by simp :
        ∀ j ∈ List.range' 0 centers.length,
          (! decide (j ∈ ([] : List ℕ))) = true)]
      rw [List.filter_true]
      exact filterMap_getElem_range centers centers.length 0 (by omega)
    rw [hpend]
    rfl
  refine ⟨hloop, ?_, ?_, ?_⟩
  · unfold consolidateCenters
    by_cases h : centers.length > 1
    · rw [if_pos h]
      exact hloop
    · rw [if_neg h]
      rcases centers with _ | ⟨c, _ | ⟨d, rest⟩⟩
      · rw [greedyConsolidate]
      · rw [greedyConsolidate]
        simp [greedyConsolidate]
      · exfalso
        simp at h
  · with_unfolding_all rfl
  · exact of_decide_eq_true (by with_unfolding_all rfl)

end Seguimiento
